import Mathlib

/-!
Verification development for the NormaDB core: a shallow embedding of the
PostgreSQL DDL parser, the normalization rule set, the conflict resolver,
the compliance calculator and the multi-schema analyzer, together with
theorems settling the specification claims.

Modelling conventions:
* JavaScript strings are Lean `String`s; character-level scanning works on
  `List Char` (the underlying data of a `String`).
* JavaScript numbers are modelled as exact rationals `ℚ`; the arithmetic in
  the scoring pipeline involves only small decimal constants, and every claim
  is about the ideal arithmetic of the documented formulas.
* JavaScript objects used as ordered string-keyed maps (`Record<string, T>`)
  are association lists `List (String × T)` preserving insertion order, with
  assignment semantics `upsert` (update in place, or append).
* A thrown JavaScript exception is `Except.error`; `try/catch` is matching on
  the `Except` value.  Code that cannot throw is embedded as a total function.
-/

namespace NormaDB

/-! ## Character and string helpers (ASCII models of the JS string methods) -/

/-- Whitespace as matched by the JS `\s` class and `String.prototype.trim`,
restricted to the ASCII characters that can occur in the repository's inputs. -/
def isJsSpace (c : Char) : Bool :=
  c = ' ' || c = '\t' || c = '\n' || c = '\r' || c = '\x0b' || c = '\x0c'

/-- ASCII model of `String.prototype.toUpperCase`. -/
def upperChar (c : Char) : Char :=
  if 'a' ≤ c && c ≤ 'z' then Char.ofNat (c.toNat - 32) else c

/-- ASCII model of `String.prototype.toLowerCase`. -/
def lowerChar (c : Char) : Char :=
  if 'A' ≤ c && c ≤ 'Z' then Char.ofNat (c.toNat + 32) else c

def upperL (l : List Char) : List Char := l.map upperChar

def lowerL (l : List Char) : List Char := l.map lowerChar

def upperStr (s : String) : String := ⟨upperL s.data⟩

def lowerStr (s : String) : String := ⟨lowerL s.data⟩

/-- Model of `startsWithL l p` is true when `p` is a leading segment of `l`
(JS `String.prototype.startsWith`). -/
def startsWithL : List Char → List Char → Bool
  | _, [] => true
  | [], _ :: _ => false
  | c :: l, d :: p => c = d && startsWithL l p

/-- Model of `containsL h n` is true when `n` occurs contiguously inside `h`
(JS `String.prototype.includes`). -/
def containsL : List Char → List Char → Bool
  | [], n => startsWithL [] n
  | h@(_ :: t), n => startsWithL h n || containsL t n

def containsStr (h n : String) : Bool := containsL h.data n.data

/-- The three quote characters stripped by the parser's
`replace(/["`']/g, '')` calls. -/
def isQuoteChar (c : Char) : Bool := c = '"' || c = '`' || c = '\''

/-- Only `'` and `"` toggle quote state in the statement splitters. -/
def isSDQuote (c : Char) : Bool := c = '\'' || c = '"'

def stripQuotes (l : List Char) : List Char := l.filter (fun c => !(isQuoteChar c))

def trimLeftL (l : List Char) : List Char := l.dropWhile isJsSpace

def trimL (l : List Char) : List Char :=
  ((trimLeftL l).reverse.dropWhile isJsSpace).reverse

def trimStr (s : String) : String := ⟨trimL s.data⟩

/-- JS `split(sep)` for a single-character separator: empty pieces are kept. -/
def splitOnCharAux (sep : Char) : List Char → List Char → List (List Char)
  | [], cur => [cur.reverse]
  | c :: rest, cur =>
    if c = sep then cur.reverse :: splitOnCharAux sep rest []
    else splitOnCharAux sep rest (c :: cur)

def splitOnChar (l : List Char) (sep : Char) : List (List Char) :=
  splitOnCharAux sep l []

/-- JS `split(/\s+/)` on already-trimmed input: splits on runs of whitespace,
producing no empty tokens (and `[]` on the empty string, which the callers
treat the same as JS's `[""]` via their length checks). -/
def splitWsAux : List Char → List Char → List (List Char)
  | [], cur => if cur.isEmpty then [] else [cur.reverse]
  | c :: rest, cur =>
    if isJsSpace c then
      if cur.isEmpty then splitWsAux rest [] else cur.reverse :: splitWsAux rest []
    else splitWsAux rest (c :: cur)

def splitWs (l : List Char) : List (List Char) := splitWsAux l []

/-- Model of `parts.slice(2).join(' ')`. -/
def joinWithSpace : List (List Char) → List Char
  | [] => []
  | [x] => x
  | x :: xs => x ++ ' ' :: joinWithSpace xs

/-- Association-list model of `obj[key] = value` on a JS object: an existing
key keeps its position and gets the new value, a new key is appended. -/
def upsert {α : Type} : List (String × α) → String → α → List (String × α)
  | [], k, v => [(k, v)]
  | (k', v') :: rest, k, v =>
    if k' = k then (k', v) :: rest else (k', v') :: upsert rest k v

/-- In-place value update of an existing key (used for
`table.columns[column].foreignKey = ...`); absent keys are untouched. -/
def updateVal {α : Type} (f : α → α) : List (String × α) → String → List (String × α)
  | [], _ => []
  | (k', v') :: rest, k =>
    if k' = k then (k', f v') :: rest else (k', v') :: updateVal f rest k

def lookupA {α : Type} : List (String × α) → String → Option α
  | [], _ => none
  | (k', v') :: rest, k => if k' = k then some v' else lookupA rest k

/-! ## Canonical schema model (src/types/schema.ts) -/

structure ForeignKeyRef where
  table : String
  column : String
  deriving DecidableEq, Repr

structure Column where
  name : String
  type : String
  nullable : Bool
  primaryKey : Bool
  unique : Bool
  foreignKey : Option ForeignKeyRef := none
  deriving DecidableEq, Repr

structure TableFK where
  column : String
  referencesTable : String
  referencesColumn : String
  deriving DecidableEq, Repr

structure Table where
  name : String
  columns : List (String × Column)
  primaryKeys : List String
  foreignKeys : List TableFK
  uniqueConstraints : List (List String)
  schemaName : Option String := none
  deriving DecidableEq, Repr

structure DatabaseSchema where
  tables : List (String × Table)
  deriving DecidableEq, Repr

inductive NormalForm where
  | nf1 | nf2 | nf3
  deriving DecidableEq, Repr

inductive Severity where
  | ERROR | WARNING
  deriving DecidableEq, Repr

structure Violation where
  normalForm : NormalForm
  table : String
  column : Option String
  severity : Severity
  message : String
  explanation : String
  suggestion : String
  confidence : ℚ
  deriving DecidableEq, Repr

/-! ## DDL parser (src/parser/sqlParser.ts) -/

/-- Model of `splitStatements`: scan character-by-character tracking single/double
quote state and parenthesis depth; a `;` terminates a statement only at depth
zero outside quotes.  The trimmed statement is pushed at each terminator (the
final fragment only when nonempty). -/
def splitStmtsAux : List Char → Bool → Char → Int → List Char →
    List (List Char) → List (List Char)
  | [], _, _, _, cur, acc =>
    let t := trimL cur.reverse
    if t.isEmpty then acc else acc ++ [t]
  | c :: rest, inQ, qc, pl, cur, acc =>
    if !inQ && isSDQuote c then
      splitStmtsAux rest true c pl (c :: cur) acc
    else if inQ && c = qc then
      splitStmtsAux rest false qc pl (c :: cur) acc
    else if !inQ then
      if c = '(' then splitStmtsAux rest inQ qc (pl + 1) (c :: cur) acc
      else if c = ')' then splitStmtsAux rest inQ qc (pl - 1) (c :: cur) acc
      else if c = ';' && pl = 0 then
        splitStmtsAux rest inQ qc pl [] (acc ++ [trimL cur.reverse])
      else splitStmtsAux rest inQ qc pl (c :: cur) acc
    else splitStmtsAux rest inQ qc pl (c :: cur) acc

def splitStatements (l : List Char) : List (List Char) :=
  splitStmtsAux l false ' ' 0 [] []

/-- Model of `splitColumnDefinitions`: identical scan, splitting on top-level commas
inside a table body. -/
def splitColsAux : List Char → Bool → Char → Int → List Char →
    List (List Char) → List (List Char)
  | [], _, _, _, cur, acc =>
    let t := trimL cur.reverse
    if t.isEmpty then acc else acc ++ [t]
  | c :: rest, inQ, qc, pl, cur, acc =>
    if !inQ && isSDQuote c then
      splitColsAux rest true c pl (c :: cur) acc
    else if inQ && c = qc then
      splitColsAux rest false qc pl (c :: cur) acc
    else if !inQ then
      if c = '(' then splitColsAux rest inQ qc (pl + 1) (c :: cur) acc
      else if c = ')' then splitColsAux rest inQ qc (pl - 1) (c :: cur) acc
      else if c = ',' && pl = 0 then
        splitColsAux rest inQ qc pl [] (acc ++ [trimL cur.reverse])
      else splitColsAux rest inQ qc pl (c :: cur) acc
    else splitColsAux rest inQ qc pl (c :: cur) acc

def splitColumnDefinitions (l : List Char) : List (List Char) :=
  splitColsAux l false ' ' 0 [] []

/-- Match a literal keyword case-insensitively (the `i` regex flag),
returning the remaining input. -/
def matchCI : List Char → List Char → Option (List Char)
  | rest, [] => some rest
  | [], _ :: _ => none
  | c :: r, k :: ks => if lowerChar c = lowerChar k then matchCI r ks else none

/-- Model of `\s+` followed by further literal material: consume one or more
whitespace characters. -/
def wsPlus : List Char → Option (List Char)
  | c :: r => if isJsSpace c then some (r.dropWhile isJsSpace) else none
  | [] => none

def isWordChar (c : Char) : Bool := c.isAlpha || c.isDigit || c = '_'

/-- Model of `["`']?(\w+)["`']?`: an optional quote, then one or more word characters
(the capture); with a quote present the word must follow it, otherwise the
regex backtracks to the unquoted branch, which then also fails on the quote
character. -/
def quotedWord (l : List Char) : Option (List Char × List Char) :=
  let core : List Char → Option (List Char × List Char) := fun m =>
    let w := m.takeWhile isWordChar
    if w.isEmpty then none else some (w, m.drop w.length)
  match l with
  | c :: r => if isQuoteChar c then core r else core l
  | [] => none

/-- The name part of the CREATE TABLE regex at a fixed position, with the
optional greedy `IF\s+NOT\s+EXISTS\s+` group tried first. -/
def createTableNameAt (l : List Char) : Option (List Char) := do
  let r1 ← matchCI l "create".data
  let r2 ← wsPlus r1
  let r3 ← matchCI r2 "table".data
  let r4 ← wsPlus r3
  let viaIne : Option (List Char) := do
    let i1 ← matchCI r4 "if".data
    let i2 ← wsPlus i1
    let i3 ← matchCI i2 "not".data
    let i4 ← wsPlus i3
    let i5 ← matchCI i4 "exists".data
    let i6 ← wsPlus i5
    let (w, _) ← quotedWord i6
    pure w
  match viaIne with
  | some w => pure w
  | none => do
    let (w, _) ← quotedWord r4
    pure w

/-- Leftmost search for
`/CREATE\s+TABLE\s+(?:IF\s+NOT\s+EXISTS\s+)?(?:["`']?(\w+)["`']?)/i`. -/
def findCreateTableName : List Char → Option (List Char)
  | [] => none
  | l@(_ :: t) =>
    match createTableNameAt l with
    | some w => some w
    | none => findCreateTableName t

/-- Model of `statement.match(/\((.*)\)/s)`: everything between the first `(` and the
last `)` after it (greedy `.*` with the `s` flag). -/
def parenCapture (l : List Char) : Option (List Char) :=
  let rest := (l.dropWhile (fun c => c ≠ '(')).drop 1
  if (l.dropWhile (fun c => c ≠ '(')).isEmpty then none
  else
    let revAfter := rest.reverse.dropWhile (fun c => c ≠ ')')
    match revAfter with
    | [] => none
    | _ :: before => some before.reverse

/-- Model of `([^)]+)\)` at a fixed position: one or more non-`)` characters followed
by a literal `)`. -/
def parenBody (l : List Char) : Option (List Char) :=
  match l with
  | '(' :: r =>
    let cap := r.takeWhile (fun c => c ≠ ')')
    if cap.isEmpty then none
    else match r.drop cap.length with
      | ')' :: _ => some cap
      | _ => none
  | _ => none

/-- Model of `/PRIMARY\s+KEY\s*\(([^)]+)\)/i` at a fixed position. -/
def primaryKeyCapAt (l : List Char) : Option (List Char) := do
  let r1 ← matchCI l "primary".data
  let r2 ← wsPlus r1
  let r3 ← matchCI r2 "key".data
  parenBody (r3.dropWhile isJsSpace)

def primaryKeyCap : List Char → Option (List Char)
  | [] => none
  | l@(_ :: t) =>
    match primaryKeyCapAt l with
    | some cap => some cap
    | none => primaryKeyCap t

/-- Model of `/UNIQUE\s*\(([^)]+)\)/i` at a fixed position. -/
def uniqueCapAt (l : List Char) : Option (List Char) := do
  let r1 ← matchCI l "unique".data
  parenBody (r1.dropWhile isJsSpace)

def uniqueCap : List Char → Option (List Char)
  | [] => none
  | l@(_ :: t) =>
    match uniqueCapAt l with
    | some cap => some cap
    | none => uniqueCap t

/-- Model of `/FOREIGN\s+KEY\s*\(([^)]+)\)\s*REFERENCES\s+["`']?(\w+)["`']?\s*\(([^)]+)\)/i`
at a fixed position, returning the three captures. -/
def foreignKeyCapAt (l : List Char) : Option (List Char × List Char × List Char) := do
  let r1 ← matchCI l "foreign".data
  let r2 ← wsPlus r1
  let r3 ← matchCI r2 "key".data
  let r4 := r3.dropWhile isJsSpace
  let cap1 ← parenBody r4
  let r5 := ((r4.drop 1).drop cap1.length).drop 1
  let r6 := r5.dropWhile isJsSpace
  let r7 ← matchCI r6 "references".data
  let r8 ← wsPlus r7
  let (name, r9) ← quotedWord r8
  let r10 := match r9 with
    | c :: rr => if isQuoteChar c then rr else r9
    | [] => r9
  let cap2 ← parenBody (r10.dropWhile isJsSpace)
  pure (cap1, name, cap2)

def foreignKeyCap : List Char → Option (List Char × List Char × List Char)
  | [] => none
  | l@(_ :: t) =>
    match foreignKeyCapAt l with
    | some caps => some caps
    | none => foreignKeyCap t

/-- Model of `parseColumn`: first token is the name (quote characters stripped, case
preserved), second the type (uppercased); remaining tokens are scanned
case-insensitively for `NOT NULL`, `PRIMARY KEY`, `UNIQUE`. -/
def parseColumn (line : List Char) : Option Column :=
  match splitWs (trimL line) with
  | p0 :: p1 :: rest =>
    let remaining := upperL (joinWithSpace rest)
    some
      { name := ⟨stripQuotes p0⟩
        type := ⟨upperL p1⟩
        nullable := !(containsL remaining "NOT NULL".data)
        primaryKey := containsL remaining "PRIMARY KEY".data
        unique := containsL remaining "UNIQUE".data
        foreignKey := none }
  | _ => none

/-- Model of `parsePrimaryKey`: append the comma-separated, trimmed, quote-stripped
column list of a table-level `PRIMARY KEY(...)` clause.  Note: this appends
to `primaryKeys` only; it does not touch the columns' `primaryKey` flags. -/
def parsePrimaryKeyLine (line : List Char) (t : Table) : Table :=
  match primaryKeyCap line with
  | some cap =>
    let cols := (splitOnChar cap ',').map (fun c => (⟨stripQuotes (trimL c)⟩ : String))
    { t with primaryKeys := t.primaryKeys ++ cols }
  | none => t

def parseForeignKeyLine (line : List Char) (t : Table) : Table :=
  match foreignKeyCap line with
  | some (cap1, nameCap, cap2) =>
    let column : String := ⟨stripQuotes (trimL cap1)⟩
    let referencesTable : String := ⟨nameCap⟩
    let referencesColumn : String := ⟨stripQuotes (trimL cap2)⟩
    let fkEdge : TableFK :=
      { column := column, referencesTable := referencesTable,
        referencesColumn := referencesColumn }
    let t1 := { t with foreignKeys := t.foreignKeys ++ [fkEdge] }
    let fkRef : ForeignKeyRef := { table := referencesTable, column := referencesColumn }
    let setFK : Column → Column := fun c => { c with foreignKey := some fkRef }
    match lookupA t1.columns column with
    | some _ => { t1 with columns := updateVal setFK t1.columns column }
    | none => t1
  | none => t

def parseUniqueLine (line : List Char) (t : Table) : Table :=
  match uniqueCap line with
  | some cap =>
    let cols := (splitOnChar cap ',').map (fun c => (⟨stripQuotes (trimL c)⟩ : String))
    { t with uniqueConstraints := t.uniqueConstraints ++ [cols] }
  | none => t

def parseConstraintLine (line : List Char) (t : Table) : Table :=
  let u := upperL line
  if containsL u "PRIMARY KEY".data then parsePrimaryKeyLine line t
  else if containsL u "FOREIGN KEY".data then parseForeignKeyLine line t
  else if containsL u "UNIQUE".data then parseUniqueLine line t
  else t

/-- One clause of a table body, classified by its leading keyword. -/
def processLine (t : Table) (line : List Char) : Table :=
  if (trimL line).isEmpty then t
  else if startsWithL (upperL (trimL line)) "PRIMARY KEY".data then
    parsePrimaryKeyLine (trimL line) t
  else if startsWithL (upperL (trimL line)) "FOREIGN KEY".data then
    parseForeignKeyLine (trimL line) t
  else if startsWithL (upperL (trimL line)) "UNIQUE".data then
    parseUniqueLine (trimL line) t
  else if startsWithL (upperL (trimL line)) "CONSTRAINT".data then
    parseConstraintLine (trimL line) t
  else
    match parseColumn (trimL line) with
    | some col =>
      { t with
        columns := upsert t.columns col.name col
        primaryKeys :=
          if col.primaryKey then t.primaryKeys ++ [col.name] else t.primaryKeys }
    | none => t

/-- Model of `parseCreateTable`. -/
def parseCreateTable (statement : List Char) : Option Table :=
  match findCreateTableName statement with
  | none => none
  | some nameCap =>
    match parenCapture statement with
    | none => none
    | some content =>
      let lines := splitColumnDefinitions content
      some (lines.foldl processLine
        { name := ⟨nameCap⟩, columns := [], primaryKeys := [],
          foreignKeys := [], uniqueConstraints := [], schemaName := none })

/-- One iteration of `SQLParser.parse`: a statement not starting (after
trimming, uppercased) with `CREATE TABLE` is silently skipped; a parsed
table is stored keyed by its name. -/
def parseStep (schema : DatabaseSchema) (st : List Char) : DatabaseSchema :=
  if (trimL st).isEmpty || !(startsWithL (upperL (trimL st)) "CREATE TABLE".data) then
    schema
  else
    match parseCreateTable (trimL st) with
    | some t => { tables := upsert schema.tables t.name t }
    | none => schema

/-- Model of `SQLParser.parse`.  No operation in the body can throw, so the
surrounding `try/catch` is dead and the function is total. -/
def parse (sql : String) : DatabaseSchema :=
  (splitStatements sql.data).foldl parseStep { tables := [] }

/-! ## Normalization rules (src/rules/...) -/

structure RuleResult where
  scoreContribution : ℚ
  violations : List Violation
  confidence : ℚ
  explanation : String
  deriving DecidableEq, Repr

/-- A normalization rule: fixed metadata plus an `evaluate` operation.  A JS
exception thrown by `evaluate` is `Except.error`. -/
structure NRule where
  normalForm : NormalForm
  name : String
  description : String
  weight : ℚ
  eval : DatabaseSchema → Except String RuleResult

/-- Model of `BaseNormalizationRule.createViolation`. -/
def createViolation (nf : NormalForm) (table : String) (column : Option String)
    (message explanation suggestion : String) (severity : Severity)
    (confidence : ℚ) : Violation :=
  { normalForm := nf, table := table, column := column, severity := severity,
    message := message, explanation := explanation, suggestion := suggestion,
    confidence := confidence }

/-- Model of `getNonKeyColumns`: the values of the columns map whose names are not in
the primary-key list. -/
def getNonKeyColumns (t : Table) : List Column :=
  (t.columns.map Prod.snd).filter (fun c => !(t.primaryKeys.contains c.name))

def isArrayType (type : String) : Bool :=
  containsStr type "[]" || containsStr (upperStr type) "ARRAY"

def isJsonType (type : String) : Bool :=
  containsStr (upperStr type) "JSON" || containsStr (upperStr type) "JSONB"

/-- Per-column violations of `NoRepeatingGroupsRule.evaluate`: an ERROR with
confidence 1.0 for an array type, then a WARNING with confidence 0.8 for a
JSON type. -/
def noRepeatingGroupsColViolations (tableName columnName : String)
    (col : Column) : List Violation :=
  (if isArrayType col.type then
    [createViolation NormalForm.nf1 tableName (some columnName)
      ("Column '" ++ columnName ++ "' has array type which violates 1NF")
      "First Normal Form requires that each column contains atomic (indivisible) values. Array types store multiple values in a single column."
      ("Consider creating a separate table for '" ++ columnName ++ "' values with a foreign key reference to '" ++ tableName ++ "'")
      Severity.ERROR 1]
  else []) ++
  (if isJsonType col.type then
    [createViolation NormalForm.nf1 tableName (some columnName)
      ("Column '" ++ columnName ++ "' has JSON type which may violate 1NF")
      "First Normal Form requires atomic values. JSON types can contain structured data that may not be atomic."
      "Consider normalizing the JSON structure into separate tables or ensure JSON contains only atomic values"
      Severity.WARNING (8 / 10)]
  else [])

def noRepeatingGroupsRule : NRule where
  normalForm := NormalForm.nf1
  name := "No Repeating Groups"
  description := "Table must not contain repeating groups or arrays"
  weight := 25 / 100
  eval := fun schema =>
    let violations := schema.tables.flatMap (fun p =>
      p.2.columns.flatMap (fun cp => noRepeatingGroupsColViolations p.1 cp.1 cp.2))
    Except.ok
      { scoreContribution := if violations.isEmpty then 1 else 0
        violations := violations
        confidence := 1
        explanation :=
          if violations.isEmpty then
            "Table contains only atomic data types, satisfying 1NF"
          else
            "Table contains non-atomic data types (arrays/JSON) that violate 1NF" }

/-- The multi-value naming patterns of `AtomicValuesRule.suggestsMultiValue`
(all are unanchored, case-insensitive substring tests). -/
def suggestsMultiValue (columnName dataType : String) : Bool :=
  (containsL (lowerStr columnName).data "list".data ||
   containsL (lowerStr columnName).data "array".data ||
   containsL (lowerStr columnName).data "items".data ||
   containsL (lowerStr columnName).data "values".data ||
   containsL (lowerStr columnName).data "data".data ||
   containsL (lowerStr columnName).data "info".data ||
   containsL (lowerStr columnName).data "details".data ||
   containsL (lowerStr columnName).data "attributes".data) &&
  !(containsStr (upperStr dataType) "TEXT")

def atomicValuesRule : NRule where
  normalForm := NormalForm.nf1
  name := "Atomic Values"
  description := "All columns must contain atomic values"
  weight := 10 / 100
  eval := fun schema =>
    let violations := schema.tables.flatMap (fun p =>
      p.2.columns.flatMap (fun cp =>
        if suggestsMultiValue cp.2.name cp.2.type then
          [createViolation NormalForm.nf1 p.1 (some cp.1)
            ("Column '" ++ cp.1 ++ "' name suggests multi-value storage")
            "First Normal Form requires each column to contain a single atomic value."
            ("Consider splitting '" ++ cp.1 ++ "' into separate columns or a related table")
            Severity.WARNING (7 / 10)]
        else []))
    Except.ok
      { scoreContribution := if violations.isEmpty then 1 else 0
        violations := violations
        confidence := 7 / 10
        explanation :=
          if violations.isEmpty then
            "Column names appear to represent atomic values"
          else
            "Column names suggest multi-value storage, potentially violating 1NF atomicity" }

/-- The violation emitted by `PrimaryKeyRule.evaluate` for one table with an
empty primary-key list. -/
def primaryKeyViolation (tableName : String) : Violation :=
  createViolation NormalForm.nf1 tableName none
    ("Table '" ++ tableName ++ "' has no primary key")
    "First Normal Form requires that each table has a unique identifier (primary key) to distinguish rows."
    ("Add a primary key to '" ++ tableName ++ "'. Consider adding an 'id' column with SERIAL or BIGINT type.")
    Severity.ERROR 1

def primaryKeyRule : NRule where
  normalForm := NormalForm.nf1
  name := "Primary Key Required"
  description := "Every table must have a primary key"
  weight := 40 / 100
  eval := fun schema =>
    let violations := schema.tables.flatMap (fun p =>
      if p.2.primaryKeys.isEmpty then [primaryKeyViolation p.1] else [])
    Except.ok
      { scoreContribution := if violations.isEmpty then 1 else 0
        violations := violations
        confidence := 1
        explanation :=
          if violations.isEmpty then
            "All tables have primary keys, satisfying 1NF uniqueness requirement"
          else
            "One or more tables lack primary keys, violating 1NF uniqueness requirement" }

/-- JS `String.prototype.replace` with a string pattern: remove the first
occurrence (replacement is the empty string); no occurrence leaves the
string unchanged. -/
def replaceFirst : List Char → List Char → List Char
  | [], _ => []
  | l@(c :: t), pat =>
    if startsWithL l pat then l.drop pat.length else c :: replaceFirst t pat

/-- Model of `NoPartialDependencyRule.assessPartialDependencyConfidence`.  The
`pattern` field of each indicator is never consulted by the code: `matches`
is invoked on every primary-key part, and `pk.replace('_id', '')` removes
only the first occurrence (a part without the suffix is used unchanged). -/
def assessPartialDependencyConfidence (col : Column) (t : Table) : ℚ :=
  let columnName := (lowerStr col.name).data
  let primaryKeyParts := t.primaryKeys.map (fun pk => (lowerStr pk).data)
  let indicator : List Char → ℚ → ℚ := fun suffix w =>
    if primaryKeyParts.any (fun pk =>
        containsL columnName (replaceFirst pk suffix)) then w else 0
  let c1 := max (max (indicator "_id".data (8 / 10)) (indicator "_code".data (8 / 10)))
    (max (indicator "_type".data (7 / 10)) (indicator "_name".data (6 / 10)))
  if containsL columnName "description".data &&
      primaryKeyParts.any (fun pk => containsL pk "id".data) then
    max c1 (5 / 10)
  else c1

def noPartialDependencyRule : NRule where
  normalForm := NormalForm.nf2
  name := "No Partial Dependencies"
  description := "Non-key attributes must depend on the entire primary key"
  weight := 60 / 100
  eval := fun schema =>
    let violations := schema.tables.flatMap (fun p =>
      if p.2.primaryKeys.length ≤ 1 then []
      else
        (getNonKeyColumns p.2).flatMap (fun col =>
          let confidence := assessPartialDependencyConfidence col p.2
          if 6 / 10 < confidence then
            [createViolation NormalForm.nf2 p.1 (some col.name)
              ("Column '" ++ col.name ++ "' may have partial dependency on composite primary key")
              "Second Normal Form requires that non-key attributes depend on the entire primary key, not just part of it."
              ("Consider moving '" ++ col.name ++ "' to a separate table with the relevant part of the composite key")
              Severity.WARNING confidence]
          else []))
    Except.ok
      { scoreContribution := if violations.isEmpty then 1 else 0
        violations := violations
        confidence := 7 / 10
        explanation :=
          if violations.isEmpty then "No partial dependencies detected"
          else "Tables with composite primary keys may have partial dependencies" }

/-- Model of `FullFunctionalDependencyRule.assessFunctionalDependencyConfidence`:
derived/aggregate column-name patterns give 0.7, the baseline is 0.3. -/
def assessFunctionalDependencyConfidence (col : Column) : ℚ :=
  let columnName := (lowerStr col.name).data
  if "_total".data.isSuffixOf columnName || "_sum".data.isSuffixOf columnName ||
     "_count".data.isSuffixOf columnName || "_avg".data.isSuffixOf columnName ||
     containsL columnName "average_".data || containsL columnName "calc_".data ||
     containsL columnName "computed_".data || containsL columnName "count_".data then
    7 / 10
  else 3 / 10

def fullFunctionalDependencyRule : NRule where
  normalForm := NormalForm.nf2
  name := "Full Functional Dependency"
  description := "All attributes must fully depend on the primary key"
  weight := 40 / 100
  eval := fun schema =>
    let violations := schema.tables.flatMap (fun p =>
      if p.2.primaryKeys.isEmpty then []
      else
        (getNonKeyColumns p.2).flatMap (fun col =>
          let confidence := assessFunctionalDependencyConfidence col
          if 5 / 10 < confidence then
            [createViolation NormalForm.nf2 p.1 (some col.name)
              ("Column '" ++ col.name ++ "' may not have full functional dependency on primary key")
              "Second Normal Form requires that all non-key attributes have full functional dependency on the primary key."
              ("Consider reviewing the relationship between '" ++ col.name ++ "' and the primary key")
              Severity.WARNING confidence]
          else []))
    Except.ok
      { scoreContribution := if violations.isEmpty then 1 else 0
        violations := violations
        confidence := 6 / 10
        explanation :=
          if violations.isEmpty then "All columns appear to have full functional dependency"
          else "Some columns may not have full functional dependency on primary key" }

/-- Determinant-name patterns of
`NoTransitiveDependencyRule.isCandidateKey` (suffix regexes). -/
def tdIsCandidateKeyName (columnName : List Char) : Bool :=
  "_id".data.isSuffixOf columnName || "_code".data.isSuffixOf columnName ||
  "_type".data.isSuffixOf columnName || "_status".data.isSuffixOf columnName ||
  "category".data.isSuffixOf columnName || "type".data.isSuffixOf columnName ||
  "status".data.isSuffixOf columnName

/-- Reference-entity patterns of
`NoTransitiveDependencyRule.isCommonReference`. -/
def tdIsCommonReference (columnName : List Char) : Bool :=
  "country".data.isSuffixOf columnName || "state".data.isSuffixOf columnName ||
  "city".data.isSuffixOf columnName || "department".data.isSuffixOf columnName ||
  "location".data.isSuffixOf columnName || "region".data.isSuffixOf columnName

/-- Model of `NoTransitiveDependencyRule.findTransitiveDependencyCandidates`. -/
def findTransitiveDependencyCandidates (col : Column)
    (nonKeyColumns : List Column) : List String :=
  (nonKeyColumns.filter (fun other =>
    other.name ≠ col.name &&
    (tdIsCandidateKeyName (lowerStr other.name).data ||
     tdIsCommonReference (lowerStr other.name).data))).map (fun other => other.name)

/-- The recursive call inside
`NoTransitiveDependencyRule.assessTransitiveDependencyConfidence` passes two
strings into a method expecting a column object and a table; evaluating
`column.name.toLowerCase()` on a string reads `undefined.toLowerCase` and
throws a TypeError.  This models that call. -/
def assessTDCOnStrings (_columnName _candidate : String) : Except String ℚ :=
  Except.error "TypeError: Cannot read properties of undefined (reading 'toLowerCase')"

/-- Model of `assessTransitiveDependencyConfidence(column, table)`: with no
candidates the confidence stays 0.0; with any candidate the recursive call
throws, so the whole evaluation throws. -/
def assessTransitiveDependencyConfidence (col : Column) (t : Table) :
    Except String ℚ := do
  let columnName := lowerStr col.name
  let nonKeyColumns := getNonKeyColumns t
  let candidates := findTransitiveDependencyCandidates col nonKeyColumns
  let confidence ← candidates.foldlM
    (fun (conf : ℚ) cand => do
      let c ← assessTDCOnStrings columnName cand
      pure (max conf c))
    (0 : ℚ)
  pure (min confidence 1)

def noTransitiveDependencyRule : NRule where
  normalForm := NormalForm.nf3
  name := "No Transitive Dependencies"
  description := "Non-key attributes must not depend on other non-key attributes"
  weight := 5 / 10
  eval := fun schema => do
    let violations ← schema.tables.foldlM
      (fun (acc : List Violation) p =>
        if p.2.primaryKeys.isEmpty then pure acc
        else
          (getNonKeyColumns p.2).foldlM
            (fun (acc2 : List Violation) col => do
              let confidence ← assessTransitiveDependencyConfidence col p.2
              if 6 / 10 < confidence then
                pure (acc2 ++
                  [createViolation NormalForm.nf3 p.1 (some col.name)
                    ("Column '" ++ col.name ++ "' appears to be a determinant but not a candidate key")
                    "Third Normal Form requires that non-key attributes do not depend on other non-key attributes."
                    ("Consider moving '" ++ col.name ++ "' to a separate table to eliminate transitive dependency")
                    Severity.WARNING confidence])
              else pure acc2)
            acc)
      []
    Except.ok
      { scoreContribution := if violations.isEmpty then 1 else 0
        violations := violations
        confidence := 7 / 10
        explanation :=
          if violations.isEmpty then "No transitive dependencies detected"
          else "Some columns may have transitive dependencies on other non-key attributes" }

/-- Model of `BoyceCoddRule.identifyCandidateKeys`: primary keys, then unique-flagged
columns, then single-column unique constraints (first occurrence kept). -/
def identifyCandidateKeys (t : Table) : List String :=
  let ck1 := t.columns.foldl
    (fun (acc : List String) cp =>
      if cp.2.unique && !(acc.contains cp.1) then acc ++ [cp.1] else acc)
    t.primaryKeys
  t.uniqueConstraints.foldl
    (fun acc grp =>
      match grp with
      | [columnName] => if !(acc.contains columnName) then acc ++ [columnName] else acc
      | _ => acc)
    ck1

/-- Model of `BoyceCoddRule.isLikelyDeterminant` (suffix regexes, the `email` family
case-insensitive). -/
def isLikelyDeterminant (columnName : String) : Bool :=
  "_id".data.isSuffixOf columnName.data || "_code".data.isSuffixOf columnName.data ||
  "_type".data.isSuffixOf columnName.data ||
  "email".data.isSuffixOf (lowerStr columnName).data ||
  "username".data.isSuffixOf (lowerStr columnName).data ||
  "ssn".data.isSuffixOf (lowerStr columnName).data ||
  "tax_id".data.isSuffixOf (lowerStr columnName).data

def boyceCoddRule : NRule where
  normalForm := NormalForm.nf3
  name := "Boyce-Codd Normal Form Check"
  description := "Every determinant must be a candidate key"
  weight := 5 / 10
  eval := fun schema =>
    let violations := schema.tables.flatMap (fun p =>
      let candidateKeys := identifyCandidateKeys p.2
      (p.2.columns.map Prod.snd).flatMap (fun col =>
        if isLikelyDeterminant col.name && !(candidateKeys.contains col.name) then
          [createViolation NormalForm.nf3 p.1 (some col.name)
            ("Column '" ++ col.name ++ "' appears to be a determinant but not a candidate key")
            "Boyce-Codd Normal Form requires that every determinant (attribute that determines another) be a candidate key."
            ("Consider making '" ++ col.name ++ "' a candidate key or normalizing the table structure")
            Severity.WARNING (7 / 10)]
        else []))
    Except.ok
      { scoreContribution := if violations.isEmpty then 1 else 0
        violations := violations
        confidence := 7 / 10
        explanation :=
          if violations.isEmpty then "All determinants appear to be candidate keys"
          else "Some columns appear to be determinants but are not candidate keys" }

/-- The rule registry built by `DatabaseAnalyzer.initializeRules`: the rules
`Map`'s keys `normalForm-name` are pairwise distinct, so its iteration order
is this insertion order. -/
def standardRules : List NRule :=
  [noRepeatingGroupsRule, atomicValuesRule, primaryKeyRule,
   noPartialDependencyRule, fullFunctionalDependencyRule,
   noTransitiveDependencyRule, boyceCoddRule]

/-! ## Compliance calculator (src/analyzer/complianceCalculator.ts) -/

structure ViolationsByNF where
  nf1 : List Violation
  nf2 : List Violation
  nf3 : List Violation
  deriving DecidableEq, Repr

def ViolationsByNF.get (v : ViolationsByNF) : NormalForm → List Violation
  | NormalForm.nf1 => v.nf1
  | NormalForm.nf2 => v.nf2
  | NormalForm.nf3 => v.nf3

def ViolationsByNF.push (v : ViolationsByNF) (nf : NormalForm)
    (vs : List Violation) : ViolationsByNF :=
  match nf with
  | NormalForm.nf1 => { v with nf1 := v.nf1 ++ vs }
  | NormalForm.nf2 => { v with nf2 := v.nf2 ++ vs }
  | NormalForm.nf3 => { v with nf3 := v.nf3 ++ vs }

/-- Model of `ComplianceCalculator.evaluateAllRules`: each rule is evaluated inside a
`try/catch`; a throwing rule is logged and skipped, the others still
contribute their violations. -/
def evaluateAllRules (rules : List NRule) (schema : DatabaseSchema) :
    ViolationsByNF :=
  rules.foldl
    (fun acc r =>
      match r.eval schema with
      | Except.ok res => acc.push r.normalForm res.violations
      | Except.error _ => acc)
    { nf1 := [], nf2 := [], nf3 := [] }

/-- Model of `ComplianceCalculator.matchesRule`: violation-to-rule matching by
substring tests on the lowercased violation message. -/
def matchesRule (violation : Violation) (rule : NRule) : Bool :=
  let message := lowerStr violation.message
  let ruleName := lowerStr rule.name
  match rule.normalForm with
  | NormalForm.nf1 =>
    if ruleName = "no repeating groups" then
      containsStr message "json" || containsStr message "array"
    else if ruleName = "atomic values" then
      containsStr message "multi-value" || containsStr message "atomic"
    else if ruleName = "primary key required" then
      containsStr message "no primary key" || containsStr message "has no primary key"
    else false
  | NormalForm.nf2 =>
    if ruleName = "no partial dependencies" then
      containsStr message "partial dependency"
    else if ruleName = "full functional dependency" then
      containsStr message "full functional dependency"
    else false
  | NormalForm.nf3 =>
    if ruleName = "no transitive dependencies" then
      containsStr message "determinant" || containsStr message "transitive"
    else if ruleName = "boyce-codd normal form check" then
      containsStr message "determinant" || containsStr message "candidate key"
    else false

/-- Model of `ComplianceCalculator.findRuleByViolation`: the first registered rule of
the violation's normal form whose `matchesRule` test succeeds. -/
def findRuleByViolation (rules : List NRule) (violation : Violation) :
    Option NRule :=
  rules.find? (fun rule =>
    rule.normalForm = violation.normalForm && matchesRule violation rule)

/-- Model of `ComplianceCalculator.calculateWeightedViolations`: the matched rule's
full weight is added once per violation (not once per distinct rule), with
no conflict resolution applied beforehand. -/
def calculateWeightedViolations (rules : List NRule) (violations : List Violation)
    (nf : NormalForm) : ℚ :=
  violations.foldl
    (fun total v =>
      if v.normalForm = nf then
        match findRuleByViolation rules v with
        | some rule => total + rule.weight
        | none => total
      else total)
    0

/-- Model of `ComplianceCalculator.getUniqueRuleCount`: the number of distinct rule
names matched by the violations of the given normal form. -/
def getUniqueRuleCount (rules : List NRule) (violations : List Violation)
    (nf : NormalForm) : Nat :=
  ((violations.filter (fun v => v.normalForm = nf)).filterMap
      (fun v => (findRuleByViolation rules v).map (fun r => r.name))).dedup.length

/-- Floor of a rational as an integer, computed by floor-division of the
numerator by the (positive) denominator. -/
def ratFloor (q : ℚ) : ℤ := Int.fdiv q.num (q.den : ℤ)

/-- Model of `Math.round(x * 100) / 100` for the nonnegative scores produced here:
JS `Math.round` is `x ↦ floor(x + 1/2)` (half rounds toward positive
infinity). -/
def round2 (q : ℚ) : ℚ := (ratFloor (q * 100 + 1 / 2) : ℚ) / 100

structure ComplianceScore where
  normalForm : NormalForm
  score : ℚ
  totalRules : Nat
  passedRules : Nat
  violations : List Violation
  maxWeight : ℚ
  violatedWeight : ℚ
  rulesEvaluated : Nat
  deriving DecidableEq, Repr

/-- Model of `ComplianceCalculator.calculateNormalFormCompliance`. -/
def calculateNormalFormCompliance (rules : List NRule) (nf : NormalForm)
    (violations : List Violation) : ComplianceScore :=
  let normalFormRules := rules.filter (fun r => r.normalForm = nf)
  let maxWeight := normalFormRules.foldl (fun s r => s + r.weight) 0
  let weightedViolations := calculateWeightedViolations rules violations nf
  let score := max 0 (min 100 ((maxWeight - weightedViolations) / maxWeight * 100))
  { normalForm := nf
    score := round2 score
    totalRules := normalFormRules.length
    passedRules := normalFormRules.length - getUniqueRuleCount rules violations nf
    violations := violations
    maxWeight := round2 maxWeight
    violatedWeight := round2 weightedViolations
    rulesEvaluated := normalFormRules.length }

/-- Model of `ComplianceCalculator.calculateOverallScore`: fixed NF weighting
`1NF×0.50 + 2NF×0.30 + 3NF×0.20`, rounded to two decimals. -/
def calculateOverallScore (c1 c2 c3 : ComplianceScore) : ℚ :=
  round2 (c1.score * (5 / 10) + c2.score * (3 / 10) + c3.score * (2 / 10))

structure Summary where
  totalViolations : Nat
  criticalViolations : Nat
  warnings : Nat
  deriving DecidableEq, Repr

def generateSummary (v : ViolationsByNF) : Summary :=
  let allViolations := v.nf1 ++ v.nf2 ++ v.nf3
  { totalViolations := allViolations.length
    criticalViolations := (allViolations.filter (fun x => x.severity = Severity.ERROR)).length
    warnings := (allViolations.filter (fun x => x.severity = Severity.WARNING)).length }

structure AnalysisReport where
  schema : DatabaseSchema
  compliance1NF : ComplianceScore
  compliance2NF : ComplianceScore
  compliance3NF : ComplianceScore
  overallScore : ℚ
  summary : Summary
  deriving DecidableEq, Repr

/-- Model of `ComplianceCalculator.calculateCompliance`. -/
def calculateCompliance (rules : List NRule) (schema : DatabaseSchema) :
    AnalysisReport :=
  let violations := evaluateAllRules rules schema
  let c1 := calculateNormalFormCompliance rules NormalForm.nf1 violations.nf1
  let c2 := calculateNormalFormCompliance rules NormalForm.nf2 violations.nf2
  let c3 := calculateNormalFormCompliance rules NormalForm.nf3 violations.nf3
  { schema := schema
    compliance1NF := c1
    compliance2NF := c2
    compliance3NF := c3
    overallScore := calculateOverallScore c1 c2 c3
    summary := generateSummary violations }

/-! ## Rule conflict resolver (src/rules/ruleConflictResolver.ts) -/

/-- Insertion-ordered grouping (the JS `Map` in `groupByColumn` and
`analyzeExtractedTables`): an existing key's group gets the element appended,
a new key is appended at the end. -/
def insertG {α : Type} {κ : Type} [DecidableEq κ] :
    List (κ × List α) → κ → α → List (κ × List α)
  | [], k, x => [(k, [x])]
  | (k', g) :: rest, k, x =>
    if k' = k then (k', g ++ [x]) :: rest else (k', g) :: insertG rest k x

def groupByKey {α : Type} {κ : Type} [DecidableEq κ] (f : α → κ)
    (l : List α) : List (κ × List α) :=
  l.foldl (fun acc x => insertG acc (f x) x) []

/-- The string `` `${table}-${column || 'table-level'}` `` built from a
table name and an optional column name (an empty column string is falsy in
JS and also maps to `table-level`). -/
def groupKeyOf (table : String) (column : Option String) : String :=
  table ++ "-" ++
    (match column with
     | none => "table-level"
     | some c => if c = "" then "table-level" else c)

/-- The grouping key of `RuleConflictResolver.groupByColumn`. -/
def violationGroupKey (v : Violation) : String :=
  groupKeyOf v.table v.column

/-- Model of `RuleConflictResolver.resolveColumnConflicts` on a group's members (the
code splits each group into `errors`/`warnings` at insertion, preserving
order, which the filters reproduce): with any ERROR present only the ERROR
violations are returned, otherwise the WARNING violations. -/
def resolveColumnConflicts (g : List Violation) : List Violation :=
  let errors := g.filter (fun v => v.severity = Severity.ERROR)
  if errors.isEmpty then g.filter (fun v => !(v.severity = Severity.ERROR))
  else errors

/-- Model of `RuleConflictResolver.resolveConflicts`. -/
def resolveConflicts (violations : List Violation) : List Violation :=
  ((groupByKey violationGroupKey violations).map
    (fun p => resolveColumnConflicts p.2)).flatten

/-! ## Database analyzer (src/analyzer/databaseAnalyzer.ts) -/

structure ColumnDef where
  name : String
  type : String
  nullable : Bool
  primaryKey : Bool := false
  unique : Bool := false
  foreignKey : Option TableFK := none
  deriving DecidableEq, Repr

inductive ConstraintType where
  | primary_key | foreign_key | unique_c
  deriving DecidableEq, Repr

structure ConstraintRefs where
  table : String
  columns : List String
  deriving DecidableEq, Repr

structure ConstraintDef where
  type : ConstraintType
  columns : List String
  references : Option ConstraintRefs := none
  deriving DecidableEq, Repr

structure ExtractedTable where
  schema : String
  tableName : String
  columns : List ColumnDef
  constraints : List ConstraintDef
  deriving DecidableEq, Repr

/-- Model of `DatabaseAnalyzer.isSystemSchema`. -/
def isSystemSchema (schemaName : String) : Bool :=
  schemaName = "pg_catalog" || schemaName = "information_schema" ||
  schemaName = "pg_toast"

/-- Model of `DatabaseAnalyzer.buildCanonicalTable`: canonical `Table` from
`ExtractedTable` facts, with no SQL parsing.  A `foreign_key` constraint's
first column (JS `c.columns[0]`, `undefined` on an empty list) is modelled
by the empty string. -/
def buildCanonicalTable (e : ExtractedTable) : Table :=
  { name := e.tableName
    schemaName := some e.schema
    columns := e.columns.foldl
      (fun acc col => upsert acc col.name
        { name := col.name, type := col.type, nullable := col.nullable,
          primaryKey := col.primaryKey, unique := col.unique,
          foreignKey := col.foreignKey.map
            (fun fk => { table := fk.referencesTable, column := fk.referencesColumn }) })
      []
    primaryKeys := (e.constraints.filter
      (fun c => c.type = ConstraintType.primary_key)).flatMap (fun c => c.columns)
    foreignKeys := (e.constraints.filter
      (fun c => c.type = ConstraintType.foreign_key)).map (fun c =>
        { column := c.columns.headD ""
          referencesTable := (c.references.map (fun r => r.table)).getD ""
          referencesColumn := (c.references.map (fun r => r.columns.headD "")).getD "" })
    uniqueConstraints := (e.constraints.filter
      (fun c => c.type = ConstraintType.unique_c)).map (fun c => c.columns) }

inductive SchemaStatus where
  | PERFECT | GOOD | NEEDS_ATTENTION | CRITICAL
  deriving DecidableEq, Repr

structure NormalizationViolation where
  normalForm : NormalForm
  table : String
  column : Option String
  severity : Severity
  message : String
  explanation : String
  suggestion : String
  confidence : ℚ
  deriving DecidableEq, Repr

structure NFTracking where
  score : ℚ
  violatedTables : Nat
  totalTables : Nat
  deriving DecidableEq, Repr

structure SchemaAnalysisResult where
  schemaName : String
  tableCount : Nat
  normalization1NF : NFTracking
  normalization2NF : NFTracking
  normalization3NF : NFTracking
  violations : List NormalizationViolation
  overallScore : ℚ
  status : SchemaStatus
  deriving DecidableEq, Repr

structure DatabaseAnalysisResult where
  totalSchemas : Nat
  totalTables : Nat
  overallScore : ℚ
  schemas : List SchemaAnalysisResult
  deriving DecidableEq, Repr

/-- Model of `DatabaseAnalyzer.getSchemaStatus` (display-only). -/
def getSchemaStatus (score : ℚ) (violations : List NormalizationViolation) :
    SchemaStatus :=
  if violations.isEmpty then SchemaStatus.PERFECT
  else if 90 ≤ score then SchemaStatus.GOOD
  else if 70 ≤ score then SchemaStatus.NEEDS_ATTENTION
  else SchemaStatus.CRITICAL

def toNormalizationViolation (tableName : String) (nf : NormalForm)
    (v : Violation) : NormalizationViolation :=
  { normalForm := nf, table := tableName, column := v.column,
    severity := v.severity, message := v.message, explanation := v.explanation,
    suggestion := v.suggestion, confidence := v.confidence }

/-- The per-table overall score used by `analyzeExtractedSchema`: the table
is wrapped in a one-table schema and run through the compliance
calculator. -/
def extractedTableReport (e : ExtractedTable) : AnalysisReport :=
  calculateCompliance standardRules
    { tables := [(e.tableName, buildCanonicalTable e)] }

/-- The schema-level percentage `100 − violated/total × 100` (100 when no
table is violated). -/
def nfTrackingScore (violatedTables totalTables : Nat) : ℚ :=
  if violatedTables = 0 then 100
  else 100 - ((violatedTables : ℚ) / (totalTables : ℚ)) * 100

/-- Model of `DatabaseAnalyzer.analyzeExtractedSchema`: analyze each extracted table
with the rule engine, average the table overall-scores for the schema
overall-score, and track per-NF violated-table counts. -/
def analyzeExtractedSchema (schemaName : String)
    (extractedTables : List ExtractedTable) : SchemaAnalysisResult :=
  let reports := extractedTables.map (fun e => (e, extractedTableReport e))
  let tableScores := reports.map (fun pr => pr.2.overallScore)
  let violations := reports.flatMap (fun pr =>
    (pr.2.compliance1NF.violations.map
      (toNormalizationViolation pr.1.tableName NormalForm.nf1)) ++
    (pr.2.compliance2NF.violations.map
      (toNormalizationViolation pr.1.tableName NormalForm.nf2)) ++
    (pr.2.compliance3NF.violations.map
      (toNormalizationViolation pr.1.tableName NormalForm.nf3)))
  let violated1 := (reports.filter (fun pr => !pr.2.compliance1NF.violations.isEmpty)).length
  let violated2 := (reports.filter (fun pr => !pr.2.compliance2NF.violations.isEmpty)).length
  let violated3 := (reports.filter (fun pr => !pr.2.compliance3NF.violations.isEmpty)).length
  let total := extractedTables.length
  let schemaScore :=
    if tableScores.isEmpty then 0 else tableScores.sum / (tableScores.length : ℚ)
  { schemaName := schemaName
    tableCount := total
    normalization1NF :=
      { score := nfTrackingScore violated1 total, violatedTables := violated1,
        totalTables := total }
    normalization2NF :=
      { score := nfTrackingScore violated2 total, violatedTables := violated2,
        totalTables := total }
    normalization3NF :=
      { score := nfTrackingScore violated3 total, violatedTables := violated3,
        totalTables := total }
    violations := violations
    overallScore := schemaScore
    status := getSchemaStatus schemaScore violations }

/-- The runtime contract enforcement of `analyzeExtractedTables`: a missing
or empty `schema` or `tableName` string is falsy and the whole analysis
throws.  `JSON.stringify(table)` in the thrown message is abbreviated. -/
def invalidExtractedTable (t : ExtractedTable) : Bool :=
  t.schema = "" || t.tableName = ""

/-- The grouping loop of `analyzeExtractedTables`: validation happens while
grouping, so the first invalid table aborts everything. -/
def groupExtractedTablesAux :
    List (String × List ExtractedTable) → List ExtractedTable →
      Except String (List (String × List ExtractedTable))
  | acc, [] => Except.ok acc
  | acc, t :: rest =>
    if invalidExtractedTable t then
      Except.error ("Invalid ExtractedTable: " ++ t.schema ++ "." ++ t.tableName)
    else groupExtractedTablesAux (insertG acc t.schema t) rest

def groupExtractedTables (ts : List ExtractedTable) :
    Except String (List (String × List ExtractedTable)) :=
  groupExtractedTablesAux [] ts

/-- One iteration of the schema loop of `analyzeExtractedTables`: system
schemas are skipped, other schemas are analyzed and their table counts and
overall scores accumulated. -/
def analyzeStep (acc : List SchemaAnalysisResult × Nat × ℚ)
    (p : String × List ExtractedTable) : List SchemaAnalysisResult × Nat × ℚ :=
  if isSystemSchema p.1 then acc
  else
    (acc.1 ++ [analyzeExtractedSchema p.1 p.2], acc.2.1 + p.2.length,
      acc.2.2 + (analyzeExtractedSchema p.1 p.2).overallScore)

/-- Model of `DatabaseAnalyzer.analyzeExtractedTables` (the body of `analyze`): group
tables by schema, skip system schemas, analyze each remaining schema, and
average the schema overall-scores for the database overall-score. -/
def analyzeExtractedTables (ts : List ExtractedTable) :
    Except String DatabaseAnalysisResult := do
  let groups ← groupExtractedTables ts
  let res := groups.foldl analyzeStep ([], 0, 0)
  let overallScore :=
    if res.1.length = 0 then 0 else res.2.2 / (res.1.length : ℚ)
  Except.ok
    { totalSchemas := res.1.length
      totalTables := res.2.1
      overallScore := overallScore
      schemas := res.1 }

structure ValidationResult where
  isValid : Bool
  errors : List String
  warnings : List String
  deriving DecidableEq, Repr

/-- Model of `DatabaseAnalyzer.validateSQL` (the spec's `validateDDL`): parse, then
warn on an empty schema, on tables without a primary key, and on tables
without columns.  Nothing in `SQLParser.parse` can throw, so the `catch`
branch that would fill `errors` is unreachable and `isValid` is always
`true`. -/
def validateSQL (sqlContent : String) : ValidationResult :=
  let schema := parse sqlContent
  let warnings :=
    (if schema.tables.isEmpty then
      ["No CREATE TABLE statements found in the SQL file"] else []) ++
    schema.tables.flatMap (fun p =>
      (if p.2.primaryKeys.isEmpty then
        ["Table '" ++ p.1 ++ "' has no primary key"] else []) ++
      (if p.2.columns.isEmpty then
        ["Table '" ++ p.1 ++ "' has no columns defined"] else []))
  { isValid := true, errors := [], warnings := warnings }

/-! ## Concrete claim inputs -/

/-- Shorthand for a nullable, non-unique column literal. -/
def mkCol (n ty : String) (pk : Bool) : Column :=
  { name := n, type := ty, nullable := true, primaryKey := pk, unique := false }

/-- Shorthand for a table literal without constraint lists. -/
def mkTable (n : String) (cols : List Column) (pks : List String) : Table :=
  { name := n, columns := cols.map (fun c => (c.name, c)), primaryKeys := pks,
    foreignKeys := [], uniqueConstraints := [] }

/-- A table with a primary key and one `JSONB[]` column: both the array
ERROR and the JSON WARNING fire on the same column. -/
def c1FailingSchema : DatabaseSchema :=
  { tables := [("t", mkTable "t"
      [mkCol "id" "SERIAL" true, mkCol "tags" "JSONB[]" false] ["id"])] }

/-- A primary-key-less table whose name contains `json`. -/
def c6FailingSchema : DatabaseSchema :=
  { tables := [("json_t", mkTable "json_t" [mkCol "a" "INT" false] [])] }

/-- A schema with a lone `JSONB` column for the JSON-confidence check. -/
def c5JsonSchema : DatabaseSchema :=
  { tables := [("t", mkTable "t" [mkCol "meta" "JSONB" false] ["meta"])] }

/-- The CHECK-constraint DDL from the repository's own failure-mode test
`should reject CHECK constraints`. -/
def c8CheckInput : String :=
  "CREATE TABLE users (id SERIAL PRIMARY KEY, age INTEGER CHECK (age > 0));"

/-- The composite-primary-key DDL of the repository's schema contract
test. -/
def c3CompositeInput : String :=
  "CREATE TABLE enrollment (student_id INTEGER, course_id INTEGER, grade TEXT, PRIMARY KEY (student_id, course_id));"

/-- Unquoted mixed-case DDL. -/
def c4MixedCaseInput : String :=
  "CREATE TABLE Users (Id INT);"

/-- The quoted-identifier DDL of the repository's schema contract test,
with quoted identifiers that contain spaces. -/
def c4QuotedSpaceInput : String :=
  "CREATE TABLE \"User Profiles\" (\"ID\" SERIAL PRIMARY KEY, \"User Name\" TEXT NOT NULL);"

/-- A schema on which `NoTransitiveDependencyRule.evaluate` throws: the
non-key column `currency` has the candidate sibling `country`, so the
broken recursive confidence call fires. -/
def c9ThrowSchema : DatabaseSchema :=
  { tables := [("users", mkTable "users"
      [mkCol "id" "SERIAL" true, mkCol "country" "TEXT" false,
       mkCol "currency" "TEXT" false] ["id"])] }

/-- An ERROR violation on column `z` of table `x-y`. -/
def c2CollisionError : Violation :=
  { normalForm := NormalForm.nf1, table := "x-y", column := some "z",
    severity := Severity.ERROR, message := "err on x-y.z", explanation := "e",
    suggestion := "s", confidence := 1 }

/-- A WARNING violation on column `y-z` of the different table `x`; its
grouping key string collides with the one above. -/
def c2CollisionWarning : Violation :=
  { normalForm := NormalForm.nf1, table := "x", column := some "y-z",
    severity := Severity.WARNING, message := "warn on x.y-z", explanation := "e",
    suggestion := "s", confidence := 1 }

/-- An ERROR violation on `users.email`. -/
def c2SameColError : Violation :=
  { normalForm := NormalForm.nf1, table := "users", column := some "email",
    severity := Severity.ERROR, message := "err on users.email",
    explanation := "e", suggestion := "s", confidence := 1 }

/-- A WARNING violation on the same `users.email` column. -/
def c2SameColWarning : Violation :=
  { normalForm := NormalForm.nf3, table := "users", column := some "email",
    severity := Severity.WARNING, message := "warn on users.email",
    explanation := "e", suggestion := "s", confidence := 1 }

/-- Well-formed single-table DDL with an inline primary key. -/
def c3WitnessInput : String := "CREATE TABLE users (id INT PRIMARY KEY);"

/-- The column the parser produces for `id INT PRIMARY KEY`. -/
def c3WitnessCol : Column :=
  { name := "id", type := "INT", nullable := true, primaryKey := true,
    unique := false, foreignKey := none }

/-- The table the parser produces for `c3WitnessInput`. -/
def c3WitnessTable : Table :=
  { name := "users", columns := [("id", c3WitnessCol)], primaryKeys := ["id"],
    foreignKeys := [], uniqueConstraints := [], schemaName := none }

/-- The JSON-type WARNING violation emitted on `c5JsonSchema`. -/
def c5JsonViolation : Violation :=
  createViolation NormalForm.nf1 "t" (some "meta")
    "Column 'meta' has JSON type which may violate 1NF"
    "First Normal Form requires atomic values. JSON types can contain structured data that may not be atomic."
    "Consider normalizing the JSON structure into separate tables or ensure JSON contains only atomic values"
    Severity.WARNING (8 / 10)

/-- The full `RuleResult` of the No Repeating Groups rule on
`c5JsonSchema`. -/
def c5JsonRuleResult : RuleResult :=
  { scoreContribution := 0, violations := [c5JsonViolation], confidence := 1,
    explanation := "Table contains non-atomic data types (arrays/JSON) that violate 1NF" }

/-- A valid extracted table in schema `public`. -/
def c7TableA : ExtractedTable :=
  { schema := "public", tableName := "a",
    columns := [{ name := "id", type := "SERIAL", nullable := true, primaryKey := true }],
    constraints := [{ type := ConstraintType.primary_key, columns := ["id"] }] }

/-- A valid extracted table in schema `s2` with no primary key. -/
def c7TableB : ExtractedTable :=
  { schema := "s2", tableName := "b",
    columns := [{ name := "x", type := "TEXT", nullable := true }],
    constraints := [] }

/-- A table in the system schema `pg_catalog`, to be excluded. -/
def c7TableSys : ExtractedTable :=
  { schema := "pg_catalog", tableName := "pg_x", columns := [], constraints := [] }

/-! ## Claim theorems -/

set_option maxRecDepth 100000

/-- C1 (code_bug), evaluation at the failing input: on a table whose `tags`
column has type `JSONB[]`, the code counts the No-Repeating-Groups weight
once per violation over the unresolved violation list — the array ERROR and
the JSON WARNING on the same column both count — giving violated weight 0.50
and a 1NF score of 33.33, where the documented policy (ERROR suppresses the
WARNING on the same column; each distinct fired rule counted once) yields
violated weight 0.25 and score ((0.75 − 0.25)/0.75)×100 = 66.67. -/
theorem c1_per_violation_weight_counting :
    (calculateCompliance standardRules c1FailingSchema).compliance1NF.violatedWeight
        = 1 / 2 ∧
      (calculateCompliance standardRules c1FailingSchema).compliance1NF.score
        = 3333 / 100 ∧
      ((3333 : ℚ) / 100 ≠ 6667 / 100) := by
  refine ⟨by with_unfolding_all rfl, by with_unfolding_all rfl, by norm_num⟩

/-- C6 (code_bug), evaluation at the failing input: for a primary-key-less
table named `json_t`, message-based rule matching attributes the missing
primary-key violation to the No Repeating Groups rule (the lowercased
message contains `json` via the table name), so the violated weight is 0.25
instead of 0.40 and the reported 1NF score is 66.67, above the claimed bound
of 46.67. -/
theorem c6_pk_violation_misattributed :
    (calculateCompliance standardRules c6FailingSchema).compliance1NF.score
        = 6667 / 100 ∧
      ¬ ((calculateCompliance standardRules c6FailingSchema).compliance1NF.score
        ≤ 4667 / 100) := by
  refine ⟨by with_unfolding_all rfl, by with_unfolding_all decide⟩

/-- C8 (code_bug), evaluation at the failing input: on the repository's own
`should reject CHECK constraints` test input, `validateSQL` returns
`isValid = true` with no errors and no warnings — the CHECK clause is
silently absorbed into the column definition and nothing in the parser can
throw — where the claim (and the repository's test) require `isValid = false`
with an `Unsupported SQL construct: CHECK constraint` error. -/
theorem c8_check_constraint_not_rejected :
    validateSQL c8CheckInput = { isValid := true, errors := [], warnings := [] } := by
  with_unfolding_all rfl

/-- C3 counterexample: parsing the repository contract test's composite-key
DDL puts `student_id` and `course_id` into the table's `primaryKeys` list,
yet every column's `primaryKey` flag is `false` — membership in the
primary-key list does not imply the flag when the key is declared by a
table-level `PRIMARY KEY(...)` clause, refuting the claimed equivalence. -/
theorem c3_table_level_pk_leaves_flag_false :
    ((parse c3CompositeInput).tables.flatMap
        (fun p => p.2.columns.map (fun cp => (cp.1, cp.2.primaryKey))))
      = [("student_id", false), ("course_id", false), ("grade", false)] ∧
    ((parse c3CompositeInput).tables.flatMap (fun p => p.2.primaryKeys))
      = ["student_id", "course_id"] := by
  exact ⟨by with_unfolding_all rfl, by with_unfolding_all rfl⟩

/-- C4 counterexample: the parser stores unquoted mixed-case identifiers
verbatim — `CREATE TABLE Users (Id INT);` produces table `Users` with column
`Id`, not the lowercase `users`/`id` the claim requires. -/
theorem c4_unquoted_identifiers_not_lowercased :
    (parse c4MixedCaseInput).tables.map Prod.fst = ["Users"] ∧
    ((parse c4MixedCaseInput).tables.flatMap
        (fun p => p.2.columns.map Prod.fst)) = ["Id"] ∧
    ("Users" : String) ≠ "users" ∧ ("Id" : String) ≠ "id" := by
  refine ⟨by with_unfolding_all rfl, by with_unfolding_all rfl, by decide, by decide⟩

/-- C5 counterexample: on a `JSONB` column the No Repeating Groups rule
emits its WARNING violation with confidence 0.8, not the claimed 1.0. -/
theorem c5_json_violation_confidence_not_one :
    (noRepeatingGroupsRule.eval c5JsonSchema).map
        (fun r => r.violations.map (fun v => (v.severity, v.confidence)))
      = Except.ok [(Severity.WARNING, 4 / 5)] ∧ ((4 : ℚ) / 5 ≠ 1) := by
  refine ⟨by with_unfolding_all rfl, by norm_num⟩

/-- C9: a rule whose `evaluate` throws is caught and skipped by
`evaluateAllRules` — the collected violations (and hence the report
`calculateCompliance` assembles from them) are exactly those of the
remaining rules, which are all still evaluated; the analysis is not
aborted. -/
theorem c9_throwing_rule_is_skipped (rs1 rs2 : List NRule) (bad : NRule)
    (schema : DatabaseSchema) (h : ∃ e, bad.eval schema = Except.error e) :
    evaluateAllRules (rs1 ++ bad :: rs2) schema = evaluateAllRules (rs1 ++ rs2) schema := by
  obtain ⟨e, he⟩ := h
  simp only [evaluateAllRules, List.foldl_append, List.foldl_cons, he]

/-- C9 witness: on a schema where the (actually broken) transitive-dependency
rule throws a TypeError, running all seven standard rules collects exactly
the violations of the other six. -/
theorem c9_throwing_rule_is_skipped_witness :
    evaluateAllRules standardRules c9ThrowSchema =
      evaluateAllRules
        [noRepeatingGroupsRule, atomicValuesRule, primaryKeyRule,
         noPartialDependencyRule, fullFunctionalDependencyRule, boyceCoddRule]
        c9ThrowSchema := by
  exact c9_throwing_rule_is_skipped
    [noRepeatingGroupsRule, atomicValuesRule, primaryKeyRule,
     noPartialDependencyRule, fullFunctionalDependencyRule]
    [boyceCoddRule] noTransitiveDependencyRule c9ThrowSchema
    ⟨"TypeError: Cannot read properties of undefined (reading 'toLowerCase')",
      by with_unfolding_all rfl⟩

/-- C10: `analyzeExtractedTables` throws its `Invalid ExtractedTable`
rejection exactly when some input table has an empty `schema` or `tableName`
(no partial result exists, since the whole call returns the error);
conversely, when every input is well-formed the analysis returns a result. -/
theorem c10_invalid_extracted_table_rejection (ts : List ExtractedTable) :
    (∃ e, analyzeExtractedTables ts = Except.error e) ↔
      (∃ t ∈ ts, t.schema = "" ∨ t.tableName = "") := by
  have key : ∀ (l : List ExtractedTable) (acc : List (String × List ExtractedTable)),
      (∃ e, groupExtractedTablesAux acc l = Except.error e) ↔
      (∃ t ∈ l, invalidExtractedTable t = true) := by
    intro l
    induction l with
    | nil => intro acc; simp [groupExtractedTablesAux]
    | cons t l ih =>
      intro acc
      by_cases hv : invalidExtractedTable t = true
      · simp [groupExtractedTablesAux, hv]
      · simp only [groupExtractedTablesAux, hv, Bool.false_eq_true, if_false,
          List.mem_cons]
        rw [ih]
        constructor
        · intro ⟨u, hu, hinv⟩; exact ⟨u, Or.inr hu, hinv⟩
        · intro ⟨u, hu, hinv⟩
          rcases hu with rfl | hu
          · exact absurd hinv hv
          · exact ⟨u, hu, hinv⟩
  have hmain : (∃ e, analyzeExtractedTables ts = Except.error e) ↔
      (∃ e, groupExtractedTables ts = Except.error e) := by
    constructor
    · intro ⟨e, he⟩
      cases hg : groupExtractedTables ts with
      | ok g =>
        exfalso
        rw [analyzeExtractedTables, hg] at he
        simp [Bind.bind, Except.bind] at he
      | error e2 => exact ⟨e2, rfl⟩
    · intro ⟨e, he⟩
      refine ⟨e, ?_⟩
      rw [analyzeExtractedTables, he]
      rfl
  rw [hmain, groupExtractedTables, key ts []]
  simp [invalidExtractedTable]

/-! ## Theory of the insertion-ordered grouping -/

theorem insertG_keys {κ α : Type} [DecidableEq κ]
    (acc : List (κ × List α)) (k : κ) (x : α) :
    (insertG acc k x).map Prod.fst =
      if k ∈ acc.map Prod.fst then acc.map Prod.fst
      else acc.map Prod.fst ++ [k] := by
  induction acc with
  | nil => simp [insertG]
  | cons q rest ih =>
    by_cases hq : q.1 = k
    · simp [insertG, hq]
    · have hne : ¬(k = q.1) := fun h => hq h.symm
      simp only [insertG, if_neg hq, List.map_cons, ih, List.mem_cons, hne,
        false_or]
      by_cases hmem : k ∈ rest.map Prod.fst
      · simp [hmem]
      · simp [hmem]

theorem insertG_mem_cases {κ α : Type} [DecidableEq κ]
    {acc : List (κ × List α)} {k : κ} {x : α} {p : κ × List α}
    (hnd : (acc.map Prod.fst).Nodup) (hp : p ∈ insertG acc k x) :
    (p ∈ acc ∧ p.1 ≠ k) ∨
    (∃ g, (k, g) ∈ acc ∧ p = (k, g ++ [x])) ∨
    (p = (k, [x]) ∧ k ∉ acc.map Prod.fst) := by
  induction acc with
  | nil =>
    simp only [insertG, List.mem_singleton] at hp
    exact Or.inr (Or.inr ⟨hp, by simp⟩)
  | cons q rest ih =>
    rw [List.map_cons, List.nodup_cons] at hnd
    obtain ⟨hq_not, hnd_rest⟩ := hnd
    by_cases hq : q.1 = k
    · simp only [insertG, if_pos hq, List.mem_cons] at hp
      rcases hp with hp | hp
      · refine Or.inr (Or.inl ⟨q.2, ?_, ?_⟩)
        · have : q = (k, q.2) := by
            rw [← hq]
          exact this ▸ List.mem_cons_self q rest
        · rw [hp, hq]
      · refine Or.inl ⟨List.mem_cons_of_mem q hp, ?_⟩
        intro hk
        exact hq_not (by
          have : p.1 ∈ rest.map Prod.fst := List.mem_map_of_mem Prod.fst hp
          rw [hk, ← hq] at this
          exact this)
    · simp only [insertG, if_neg hq, List.mem_cons] at hp
      rcases hp with hp | hp
      · exact Or.inl ⟨hp ▸ List.mem_cons_self q rest, hp ▸ hq⟩
      · rcases ih hnd_rest hp with ⟨h1, h2⟩ | ⟨g, hg, hpg⟩ | ⟨hpx, hnk⟩
        · exact Or.inl ⟨List.mem_cons_of_mem q h1, h2⟩
        · exact Or.inr (Or.inl ⟨g, List.mem_cons_of_mem q hg, hpg⟩)
        · refine Or.inr (Or.inr ⟨hpx, ?_⟩)
          simp only [List.map_cons, List.mem_cons]
          rintro (h | h)
          · exact hq h.symm
          · exact hnk h

theorem groupByAux_spec {κ α : Type} [DecidableEq κ] (f : α → κ) :
    ∀ (l pre : List α) (acc : List (κ × List α)),
      (acc.map Prod.fst).Nodup →
      (∀ p ∈ acc, p.2 = pre.filter (fun x => decide (f x = p.1))) →
      (∀ k, k ∈ acc.map Prod.fst ↔ k ∈ pre.map f) →
      ((l.foldl (fun a x => insertG a (f x) x) acc).map Prod.fst).Nodup ∧
      (∀ p ∈ l.foldl (fun a x => insertG a (f x) x) acc,
        p.2 = (pre ++ l).filter (fun x => decide (f x = p.1))) ∧
      (∀ k, k ∈ (l.foldl (fun a x => insertG a (f x) x) acc).map Prod.fst ↔
        k ∈ (pre ++ l).map f) := by
  intro l
  induction l with
  | nil =>
    intro pre acc h1 h2 h3
    simp only [List.foldl_nil, List.append_nil]
    exact ⟨h1, h2, h3⟩
  | cons x l ih =>
    intro pre acc h1 h2 h3
    have s1 : ((insertG acc (f x) x).map Prod.fst).Nodup := by
      rw [insertG_keys]
      by_cases hmem : f x ∈ acc.map Prod.fst
      · simpa [hmem] using h1
      · simpa [hmem] using List.Nodup.append h1 (List.nodup_singleton (f x))
          (by simpa using hmem)
    have s2 : ∀ p ∈ insertG acc (f x) x,
        p.2 = (pre ++ [x]).filter (fun y => decide (f y = p.1)) := by
      intro p hp
      rcases insertG_mem_cases h1 hp with ⟨hmem, hne⟩ | ⟨g, hg, hpg⟩ | ⟨hpx, hnk⟩
      · rw [List.filter_append, h2 p hmem]
        have : (decide (f x = p.1)) = false := by
          simpa using fun h => hne (by rw [h])
        simp [this]
      · have hg2 := h2 (f x, g) hg
        rw [hpg, List.filter_append]
        simp only
        rw [← hg2]
        simp
      · rw [hpx]
        simp only
        have hpre : pre.filter (fun y => decide (f y = f x)) = [] := by
          refine List.filter_eq_nil_iff.mpr ?_
          intro a ha
          simp only [decide_eq_true_eq]
          intro hfa
          exact hnk ((h3 (f x)).mpr (hfa ▸ List.mem_map_of_mem f ha))
        rw [List.filter_append, hpre]
        simp
    have s3 : ∀ k, k ∈ (insertG acc (f x) x).map Prod.fst ↔
        k ∈ (pre ++ [x]).map f := by
      intro k
      rw [insertG_keys]
      by_cases hmem : f x ∈ acc.map Prod.fst
      · rw [if_pos hmem, h3 k, List.map_append, List.mem_append]
        constructor
        · exact fun h => Or.inl h
        · rintro (h | h)
          · exact h
          · have hkfx : k = f x := by simpa using h
            exact hkfx ▸ (h3 (f x)).mp hmem
      · rw [if_neg hmem, List.mem_append, List.map_append, List.mem_append, h3 k]
        simp
    have := ih (pre ++ [x]) (insertG acc (f x) x) s1 s2 s3
    rw [List.append_assoc, List.singleton_append] at this
    exact this

theorem groupByKey_spec {κ α : Type} [DecidableEq κ] (f : α → κ) (l : List α) :
    ((groupByKey f l).map Prod.fst).Nodup ∧
    (∀ p ∈ groupByKey f l, p.2 = l.filter (fun x => decide (f x = p.1))) ∧
    (∀ k, k ∈ (groupByKey f l).map Prod.fst ↔ k ∈ l.map f) := by
  have := groupByAux_spec f l [] [] (by simp) (by simp) (by simp)
  simpa [groupByKey] using this

theorem filter_flatten_eq {β : Type} (p : β → Bool) (L : List (List β)) :
    L.flatten.filter p = (L.map (fun l => l.filter p)).flatten := by
  induction L with
  | nil => simp
  | cons l L ih => simp [List.filter_append, ih]

theorem flatten_all_nil {β : Type} :
    ∀ (L : List (List β)), (∀ m ∈ L, m = []) → L.flatten = []
  | [], _ => rfl
  | m :: ms, h => by
    rw [List.flatten_cons, h m (List.mem_cons_self m ms),
      flatten_all_nil ms (fun x hx => h x (List.mem_cons_of_mem m hx))]
    rfl

theorem flatten_single {κ α β : Type} [DecidableEq κ]
    {L : List (κ × List α)} {k₀ : κ} {g₀ : List α} (F : κ × List α → List β)
    (hmem : (k₀, g₀) ∈ L) (hnd : (L.map Prod.fst).Nodup)
    (hother : ∀ p ∈ L, p.1 ≠ k₀ → F p = []) :
    (L.map F).flatten = F (k₀, g₀) := by
  induction L with
  | nil => cases hmem
  | cons q rest ih =>
    rw [List.map_cons, List.nodup_cons] at hnd
    obtain ⟨hq_not, hnd_rest⟩ := hnd
    by_cases hq : q.1 = k₀
    · have hqe : q = (k₀, g₀) := by
        rcases List.mem_cons.mp hmem with h | h
        · exact h.symm
        · exact absurd (by simpa [hq] using List.mem_map_of_mem Prod.fst h : q.1 ∈ rest.map Prod.fst) (hq ▸ hq_not)
      have hrest : ((rest.map F).flatten : List β) = [] := by
        refine flatten_all_nil (rest.map F) ?_
        intro m hm
        rcases List.mem_map.mp hm with ⟨r, hr, rfl⟩
        refine hother r (List.mem_cons_of_mem q hr) ?_
        intro hk
        refine hq_not ?_
        rw [hq]
        exact hk ▸ List.mem_map_of_mem Prod.fst hr
      rw [List.map_cons, List.flatten_cons, hrest, List.append_nil, hqe]
    · have hmem2 : (k₀, g₀) ∈ rest := by
        rcases List.mem_cons.mp hmem with h | h
        · exact absurd (by rw [← h]) hq
        · exact h
      rw [List.map_cons, List.flatten_cons,
        hother q (List.mem_cons_self q rest) hq,
        ih hmem2 hnd_rest (fun p hp => hother p (List.mem_cons_of_mem q hp))]
      rfl

theorem resolveColumnConflicts_subset {g : List Violation} {v : Violation}
    (hv : v ∈ resolveColumnConflicts g) : v ∈ g := by
  simp only [resolveColumnConflicts] at hv
  split at hv
  · exact (List.mem_filter.mp hv).1
  · exact (List.mem_filter.mp hv).1

/-- C2 (amended): `resolveConflicts` groups by the concatenated string key
`` `table-column` ``; whenever those keys are injective over the input's
`(table, column)` pairs — in particular whenever no table name contains a
dash and no column is literally named `table-level` — the per-group policy
of the claim holds: a group with an ERROR keeps exactly its ERROR
violations, a group without one keeps all its WARNING violations
unchanged. -/
theorem c2_error_suppresses_warning_per_group (vs : List Violation)
    (hinj : ∀ v1 ∈ vs, ∀ v2 ∈ vs,
      violationGroupKey v1 = violationGroupKey v2 →
        v1.table = v2.table ∧ v1.column = v2.column)
    (t : String) (c : Option String) :
    (resolveConflicts vs).filter (fun v => v.table = t ∧ v.column = c) =
      (if (vs.filter (fun v => v.table = t ∧ v.column = c)).any
            (fun v => v.severity = Severity.ERROR) then
        (vs.filter (fun v => v.table = t ∧ v.column = c)).filter
          (fun v => v.severity = Severity.ERROR)
      else vs.filter (fun v => v.table = t ∧ v.column = c)) := by
  obtain ⟨hnd, hgrp, hkeys⟩ := groupByKey_spec violationGroupKey vs
  rw [resolveConflicts, filter_flatten_eq, List.map_map]
  simp only [Function.comp_def]
  by_cases hex : ∃ v₀, v₀ ∈ vs ∧ (v₀.table = t ∧ v₀.column = c)
  · obtain ⟨v₀, hv₀, ht₀, hc₀⟩ := hex
    have hk₀ : violationGroupKey v₀ = groupKeyOf t c := by
      rw [violationGroupKey, ht₀, hc₀]
    have hchar : ∀ v ∈ vs, (decide (v.table = t ∧ v.column = c)) =
        (decide (violationGroupKey v = groupKeyOf t c)) := by
      intro v hv
      by_cases hpv : v.table = t ∧ v.column = c
      · have hkv : violationGroupKey v = groupKeyOf t c := by
          rw [violationGroupKey, hpv.1, hpv.2]
        simp [hpv, hkv]
      · have hkv : ¬(violationGroupKey v = groupKeyOf t c) := by
          intro hk
          have := hinj v hv v₀ hv₀ (hk.trans hk₀.symm)
          exact hpv ⟨this.1.trans ht₀, this.2.trans hc₀⟩
        simp [hpv, hkv]
    have hfe : vs.filter (fun v => v.table = t ∧ v.column = c) =
        vs.filter (fun v => decide (violationGroupKey v = groupKeyOf t c)) :=
      List.filter_congr hchar
    have hkey_mem : groupKeyOf t c ∈
        (groupByKey violationGroupKey vs).map Prod.fst :=
      (hkeys (groupKeyOf t c)).mpr (hk₀ ▸ List.mem_map_of_mem violationGroupKey hv₀)
    obtain ⟨q, hq, hq1⟩ := List.mem_map.mp hkey_mem
    have hqpair : (groupKeyOf t c, q.2) ∈ groupByKey violationGroupKey vs := by
      have : q = (groupKeyOf t c, q.2) := by
        rw [← hq1]
      exact this ▸ hq
    have hq2 : q.2 = vs.filter (fun v => decide (violationGroupKey v = groupKeyOf t c)) := by
      have := hgrp q hq
      rw [hq1] at this
      exact this
    have hflat := flatten_single
      (fun pr => (resolveColumnConflicts pr.2).filter
        (fun v => v.table = t ∧ v.column = c))
      hqpair hnd ?hother
    case hother =>
      intro pr hpr hne
      refine List.filter_eq_nil_iff.mpr ?_
      intro v hv
      have hvg : v ∈ pr.2 := resolveColumnConflicts_subset hv
      have := hgrp pr hpr
      rw [this] at hvg
      obtain ⟨hvvs, hvkey⟩ := List.mem_filter.mp hvg
      simp only [decide_eq_true_eq] at hvkey ⊢
      intro hpv
      refine hne ?_
      rw [← hvkey, violationGroupKey, hpv.1, hpv.2]
    rw [hflat]
    simp only
    have hall : ∀ v ∈ q.2, (decide (v.table = t ∧ v.column = c)) = true := by
      intro v hv
      rw [hq2] at hv
      obtain ⟨hvvs, hvkey⟩ := List.mem_filter.mp hv
      rw [hchar v hvvs]
      exact hvkey
    have hres_all : ∀ v ∈ resolveColumnConflicts q.2,
        (decide (v.table = t ∧ v.column = c)) = true :=
      fun v hv => hall v (resolveColumnConflicts_subset hv)
    rw [List.filter_eq_self.mpr hres_all, hfe, ← hq2]
    simp only [resolveColumnConflicts]
    by_cases herr : (q.2.filter (fun v => v.severity = Severity.ERROR)).isEmpty
    · have hany : q.2.any (fun v => v.severity = Severity.ERROR) = false := by
        rw [List.isEmpty_iff, List.filter_eq_nil_iff] at herr
        rw [List.any_eq_false]
        intro v hv
        simpa using herr v hv
      rw [if_pos herr, hany]
      simp only [Bool.false_eq_true, if_false]
      refine List.filter_eq_self.mpr ?_
      intro v hv
      rw [List.isEmpty_iff, List.filter_eq_nil_iff] at herr
      simpa using herr v hv
    · have hany : q.2.any (fun v => v.severity = Severity.ERROR) = true := by
        rw [List.isEmpty_iff] at herr
        rcases List.exists_cons_of_ne_nil herr with ⟨v, l, hvl⟩
        have hv : v ∈ q.2.filter (fun v => v.severity = Severity.ERROR) := by
          rw [hvl]; exact List.mem_cons_self v l
        obtain ⟨hvg, hve⟩ := List.mem_filter.mp hv
        rw [List.any_eq_true]
        exact ⟨v, hvg, hve⟩
      rw [if_neg herr, hany, if_pos rfl]
  · push_neg at hex
    have hgrp_nil : vs.filter (fun v => v.table = t ∧ v.column = c) = [] := by
      refine List.filter_eq_nil_iff.mpr ?_
      intro v hv
      simpa using hex v hv
    rw [hgrp_nil]
    simp only [List.any_nil, Bool.false_eq_true, if_false]
    refine flatten_all_nil _ ?_
    intro m hm
    rcases List.mem_map.mp hm with ⟨pr, hpr, rfl⟩
    refine List.filter_eq_nil_iff.mpr ?_
    intro v hv
    have hvg : v ∈ pr.2 := resolveColumnConflicts_subset hv
    have := hgrp pr hpr
    rw [this] at hvg
    have hvvs : v ∈ vs := (List.mem_filter.mp hvg).1
    simpa using hex v hvvs

/-- C2 counterexample: the ERROR on column `z` of table `x-y` and the
WARNING on column `y-z` of the distinct table `x` share the string key
`x-y-z`, so they are merged into one group and the WARNING — whose own
`(table, column)` group contains no ERROR — is dropped, contradicting the
claim for every list of violations. -/
theorem c2_dash_collision_counterexample :
    resolveConflicts [c2CollisionError, c2CollisionWarning] = [c2CollisionError] ∧
    c2CollisionError.table ≠ c2CollisionWarning.table ∧
    c2CollisionWarning.severity = Severity.WARNING ∧
    c2CollisionWarning ∉ resolveConflicts [c2CollisionError, c2CollisionWarning] := by
  refine ⟨by with_unfolding_all rfl, by decide, by decide, ?_⟩
  intro hmem
  rw [show resolveConflicts [c2CollisionError, c2CollisionWarning] = [c2CollisionError]
    from by with_unfolding_all rfl] at hmem
  have : c2CollisionWarning = c2CollisionError := List.mem_singleton.mp hmem
  exact absurd (congrArg Violation.table this) (by decide)

/-- C2 witness: the spec's own example — one ERROR and one WARNING on the
same `users.email` column — resolves to exactly the ERROR. -/
theorem c2_error_suppresses_warning_witness :
    (resolveConflicts [c2SameColError, c2SameColWarning]).filter
        (fun v => v.table = "users" ∧ v.column = some "email")
      = [c2SameColError] := by
  rw [c2_error_suppresses_warning_per_group [c2SameColError, c2SameColWarning]
    (by with_unfolding_all decide) "users" (some "email")]
  with_unfolding_all rfl

theorem groupExtractedTablesAux_ok_of_valid :
    ∀ (l : List ExtractedTable) (acc : List (String × List ExtractedTable)),
      (∀ t ∈ l, invalidExtractedTable t = false) →
      groupExtractedTablesAux acc l =
        Except.ok (l.foldl (fun a x => insertG a x.schema x) acc) := by
  intro l
  induction l with
  | nil => intro acc _; rfl
  | cons t l ih =>
    intro acc h
    have hv := h t (List.mem_cons_self t l)
    simp only [groupExtractedTablesAux, hv, Bool.false_eq_true, if_false,
      List.foldl_cons]
    exact ih _ (fun u hu => h u (List.mem_cons_of_mem t hu))

theorem analyzeFold_spec :
    ∀ (groups : List (String × List ExtractedTable))
      (acc : List SchemaAnalysisResult × Nat × ℚ),
      groups.foldl analyzeStep acc =
        (acc.1 ++ (groups.filter (fun p => !(isSystemSchema p.1))).map
            (fun p => analyzeExtractedSchema p.1 p.2),
         acc.2.1 + ((groups.filter (fun p => !(isSystemSchema p.1))).map
            (fun p => p.2.length)).sum,
         acc.2.2 + ((groups.filter (fun p => !(isSystemSchema p.1))).map
            (fun p => (analyzeExtractedSchema p.1 p.2).overallScore)).sum) := by
  intro groups
  induction groups with
  | nil => intro acc; simp
  | cons p groups ih =>
    intro acc
    by_cases hsys : isSystemSchema p.1
    · simp [List.foldl_cons, analyzeStep, hsys, ih]
    · simp only [List.foldl_cons, analyzeStep, hsys, Bool.false_eq_true,
        if_false, ih, List.filter_cons, Bool.not_false, List.map_cons,
        List.sum_cons]
      refine Prod.ext ?_ (Prod.ext ?_ ?_)
      · simp [List.append_assoc]
      · simp [Nat.add_assoc]
      · simp [add_assoc]

/-- C7: for well-formed inputs the multi-schema analysis (i) reports as
database overall score the unweighted arithmetic mean of the schema overall
scores, (ii) gives every reported schema the unweighted arithmetic mean of
the per-table overall scores of exactly the input tables belonging to that
schema, (iii) reports no system schema, and (iv) reports every non-system
input schema. -/
theorem c7_unweighted_mean_aggregation (ts : List ExtractedTable)
    (h : ∀ t ∈ ts, invalidExtractedTable t = false) :
    ∃ result, analyzeExtractedTables ts = Except.ok result ∧
      (result.overallScore = if result.schemas.length = 0 then 0
        else (result.schemas.map (fun s => s.overallScore)).sum /
          (result.schemas.length : ℚ)) ∧
      (∀ s ∈ result.schemas, isSystemSchema s.schemaName = false ∧
        s.overallScore =
          (if (ts.filter (fun e => e.schema = s.schemaName)).isEmpty then 0
           else ((ts.filter (fun e => e.schema = s.schemaName)).map
              (fun e => (extractedTableReport e).overallScore)).sum /
             (((ts.filter (fun e => e.schema = s.schemaName)).length : ℚ)))) ∧
      (∀ e ∈ ts, isSystemSchema e.schema = false →
        ∃ s ∈ result.schemas, s.schemaName = e.schema) := by
  obtain ⟨hnd, hgrp, hkeys⟩ := groupByKey_spec (fun e : ExtractedTable => e.schema) ts
  have hok : groupExtractedTables ts =
      Except.ok (groupByKey (fun e : ExtractedTable => e.schema) ts) :=
    groupExtractedTablesAux_ok_of_valid ts [] h
  have hfold := analyzeFold_spec
    (groupByKey (fun e : ExtractedTable => e.schema) ts) ([], 0, 0)
  simp only [List.nil_append, Nat.zero_add, zero_add] at hfold
  set G := groupByKey (fun e : ExtractedTable => e.schema) ts with hG
  set nonsys := G.filter (fun p => !(isSystemSchema p.1)) with hnonsys
  refine ⟨{ totalSchemas := (G.foldl analyzeStep ([], 0, 0)).1.length,
            totalTables := (G.foldl analyzeStep ([], 0, 0)).2.1,
            overallScore := if (G.foldl analyzeStep ([], 0, 0)).1.length = 0 then 0
              else (G.foldl analyzeStep ([], 0, 0)).2.2 /
                ((G.foldl analyzeStep ([], 0, 0)).1.length : ℚ),
            schemas := (G.foldl analyzeStep ([], 0, 0)).1 }, ?_, ?_, ?_, ?_⟩
  · rw [analyzeExtractedTables, hok]
    rfl
  · simp only [hfold]
    by_cases hlen : (nonsys.map (fun p => analyzeExtractedSchema p.1 p.2)).length = 0
    · simp [hlen]
    · rw [if_neg hlen, if_neg hlen, List.map_map, Function.comp_def]
  · intro s hs
    simp only [hfold] at hs
    rcases List.mem_map.mp hs with ⟨p, hpmem, rfl⟩
    obtain ⟨hpgrp, hpsys⟩ := List.mem_filter.mp hpmem
    have hname : (analyzeExtractedSchema p.1 p.2).schemaName = p.1 := rfl
    constructor
    · rw [hname]
      simpa using hpsys
    · rw [hname]
      have hp2 : p.2 = ts.filter (fun e => decide (e.schema = p.1)) := hgrp p hpgrp
      show (analyzeExtractedSchema p.1 p.2).overallScore = _
      rw [show (analyzeExtractedSchema p.1 p.2).overallScore =
        (if (p.2.map (fun e => (extractedTableReport e).overallScore)).isEmpty then 0
         else (p.2.map (fun e => (extractedTableReport e).overallScore)).sum /
           ((p.2.map (fun e => (extractedTableReport e).overallScore)).length : ℚ))
        from by simp [analyzeExtractedSchema, List.map_map, Function.comp_def]]
      rw [hp2]
      by_cases hemp : (ts.filter (fun e => decide (e.schema = p.1))).isEmpty
      · rw [List.isEmpty_iff] at hemp
        rw [hemp]
        simp
      · rw [if_neg (by simpa using hemp), if_neg (by simpa using hemp)]
        simp [List.length_map]
  · intro e hets hesys
    have hkey : e.schema ∈ G.map Prod.fst :=
      (hkeys e.schema).mpr (List.mem_map_of_mem (fun x : ExtractedTable => x.schema) hets)
    rcases List.mem_map.mp hkey with ⟨p, hpgrp, hp1⟩
    refine ⟨analyzeExtractedSchema p.1 p.2, ?_, hp1⟩
    show analyzeExtractedSchema p.1 p.2 ∈ (G.foldl analyzeStep ([], 0, 0)).1
    simp only [hfold]
    refine List.mem_map_of_mem
      (fun q : String × List ExtractedTable => analyzeExtractedSchema q.1 q.2) ?_
    refine List.mem_filter.mpr ⟨hpgrp, ?_⟩
    rw [hp1]
    simp [hesys]

/-- C7 witness: two user schemas plus a `pg_catalog` table — the analysis
succeeds and the database overall score is the unweighted mean of the
reported schema scores. -/
theorem c7_unweighted_mean_aggregation_witness :
    (match analyzeExtractedTables [c7TableA, c7TableB, c7TableSys] with
     | Except.ok result =>
        result.overallScore = (if result.schemas.length = 0 then 0
          else (result.schemas.map (fun s => s.overallScore)).sum /
            (result.schemas.length : ℚ))
     | Except.error _ => False) := by
  obtain ⟨result, hok, hov, _, _⟩ :=
    c7_unweighted_mean_aggregation [c7TableA, c7TableB, c7TableSys] (by decide)
  rw [hok]
  exact hov

theorem upsert_mem {α : Type} {l : List (String × α)} {k : String} {v : α}
    {p : String × α} (hp : p ∈ upsert l k v) : p ∈ l ∨ p = (k, v) := by
  induction l with
  | nil =>
    simp only [upsert, List.mem_singleton] at hp
    exact Or.inr hp
  | cons q rest ih =>
    by_cases hk : q.1 = k
    · simp only [upsert, if_pos hk, List.mem_cons] at hp
      rcases hp with hp | hp
      · exact Or.inr (by rw [hp, hk])
      · exact Or.inl (List.mem_cons_of_mem q hp)
    · simp only [upsert, if_neg hk, List.mem_cons] at hp
      rcases hp with hp | hp
      · exact Or.inl (hp ▸ List.mem_cons_self q rest)
      · rcases ih hp with h | h
        · exact Or.inl (List.mem_cons_of_mem q h)
        · exact Or.inr h

theorem updateVal_mem {α : Type} (f : α → α) {l : List (String × α)}
    {k : String} {p : String × α} (hp : p ∈ updateVal f l k) :
    p ∈ l ∨ ∃ q ∈ l, p = (q.1, f q.2) := by
  induction l with
  | nil =>
    simp only [updateVal] at hp
    cases hp
  | cons q rest ih =>
    by_cases hk : q.1 = k
    · simp only [updateVal, if_pos hk, List.mem_cons] at hp
      rcases hp with hp | hp
      · exact Or.inr ⟨q, List.mem_cons_self q rest, hp ▸ rfl⟩
      · exact Or.inl (List.mem_cons_of_mem q hp)
    · simp only [updateVal, if_neg hk, List.mem_cons] at hp
      rcases hp with hp | hp
      · exact Or.inl (hp ▸ List.mem_cons_self q rest)
      · rcases ih hp with h | ⟨r, hr, hpr⟩
        · exact Or.inl (List.mem_cons_of_mem q h)
        · exact Or.inr ⟨r, List.mem_cons_of_mem q hr, hpr⟩

theorem parsePrimaryKeyLine_props (line : List Char) (t : Table) :
    (parsePrimaryKeyLine line t).columns = t.columns ∧
    ∃ ext, (parsePrimaryKeyLine line t).primaryKeys = t.primaryKeys ++ ext := by
  rw [parsePrimaryKeyLine]
  cases primaryKeyCap line with
  | none => exact ⟨rfl, [], by simp⟩
  | some cap => exact ⟨rfl, _, rfl⟩

theorem parseUniqueLine_props (line : List Char) (t : Table) :
    (parseUniqueLine line t).columns = t.columns ∧
    (parseUniqueLine line t).primaryKeys = t.primaryKeys := by
  rw [parseUniqueLine]
  cases uniqueCap line with
  | none => exact ⟨rfl, rfl⟩
  | some cap => exact ⟨rfl, rfl⟩

theorem parseForeignKeyLine_props (line : List Char) (t : Table) :
    (parseForeignKeyLine line t).primaryKeys = t.primaryKeys ∧
    ∀ p ∈ (parseForeignKeyLine line t).columns, ∃ q ∈ t.columns,
      p.2.name = q.2.name ∧ p.2.primaryKey = q.2.primaryKey := by
  rw [parseForeignKeyLine]
  cases hfk : foreignKeyCap line with
  | none => exact ⟨rfl, fun p hp => ⟨p, hp, rfl, rfl⟩⟩
  | some caps =>
    obtain ⟨cap1, nameCap, cap2⟩ := caps
    simp only
    cases hlk : lookupA t.columns (⟨stripQuotes (trimL cap1)⟩ : String) with
    | none =>
      simp only [hlk]
      exact ⟨by trivial, fun p hp => ⟨p, hp, rfl, rfl⟩⟩
    | some cv =>
      simp only [hlk]
      refine ⟨by trivial, fun p hp => ?_⟩
      rcases updateVal_mem _ hp with h | ⟨q, hq, hpq⟩
      · exact ⟨p, h, rfl, rfl⟩
      · exact ⟨q, hq, by rw [hpq], by rw [hpq]⟩

theorem parseConstraintLine_props (line : List Char) (t : Table) :
    (∃ ext, (parseConstraintLine line t).primaryKeys = t.primaryKeys ++ ext) ∧
    ∀ p ∈ (parseConstraintLine line t).columns, ∃ q ∈ t.columns,
      p.2.name = q.2.name ∧ p.2.primaryKey = q.2.primaryKey := by
  rw [parseConstraintLine]
  by_cases h1 : containsL (upperL line) "PRIMARY KEY".data
  · rw [if_pos h1]
    obtain ⟨hc, ext, hpk⟩ := parsePrimaryKeyLine_props line t
    exact ⟨⟨ext, hpk⟩, fun p hp => ⟨p, hc ▸ hp, rfl, rfl⟩⟩
  · rw [if_neg h1]
    by_cases h2 : containsL (upperL line) "FOREIGN KEY".data
    · rw [if_pos h2]
      obtain ⟨hpk, hcols⟩ := parseForeignKeyLine_props line t
      exact ⟨⟨[], by rw [hpk, List.append_nil]⟩, hcols⟩
    · rw [if_neg h2]
      by_cases h3 : containsL (upperL line) "UNIQUE".data
      · rw [if_pos h3]
        obtain ⟨hc, hpk⟩ := parseUniqueLine_props line t
        exact ⟨⟨[], by rw [hpk, List.append_nil]⟩, fun p hp => ⟨p, hc ▸ hp, rfl, rfl⟩⟩
      · rw [if_neg h3]
        exact ⟨⟨[], by rw [List.append_nil]⟩, fun p hp => ⟨p, hp, rfl, rfl⟩⟩

theorem processLine_sound {t : Table} (line : List Char)
    (h : ∀ q ∈ t.columns, q.2.primaryKey = true → q.2.name ∈ t.primaryKeys) :
    ∀ q ∈ (processLine t line).columns, q.2.primaryKey = true →
      q.2.name ∈ (processLine t line).primaryKeys := by
  rw [processLine]
  by_cases h0 : (trimL line).isEmpty
  · rw [if_pos h0]; exact h
  rw [if_neg h0]
  by_cases h1 : startsWithL (upperL (trimL line)) "PRIMARY KEY".data
  · rw [if_pos h1]
    obtain ⟨hc, ext, hpk⟩ := parsePrimaryKeyLine_props (trimL line) t
    rw [hc, hpk]
    exact fun q hq hflag => List.mem_append_left ext (h q hq hflag)
  rw [if_neg h1]
  by_cases h2 : startsWithL (upperL (trimL line)) "FOREIGN KEY".data
  · rw [if_pos h2]
    obtain ⟨hpk, hcols⟩ := parseForeignKeyLine_props (trimL line) t
    rw [hpk]
    intro q hq hflag
    obtain ⟨r, hr, hname, hpkf⟩ := hcols q hq
    rw [hname]
    exact h r hr (hpkf ▸ hflag)
  rw [if_neg h2]
  by_cases h3 : startsWithL (upperL (trimL line)) "UNIQUE".data
  · rw [if_pos h3]
    obtain ⟨hc, hpk⟩ := parseUniqueLine_props (trimL line) t
    rw [hc, hpk]
    exact h
  rw [if_neg h3]
  by_cases h4 : startsWithL (upperL (trimL line)) "CONSTRAINT".data
  · rw [if_pos h4]
    obtain ⟨⟨ext, hpk⟩, hcols⟩ := parseConstraintLine_props (trimL line) t
    rw [hpk]
    intro q hq hflag
    obtain ⟨r, hr, hname, hpkf⟩ := hcols q hq
    rw [hname]
    exact List.mem_append_left ext (h r hr (hpkf ▸ hflag))
  rw [if_neg h4]
  cases hc : parseColumn (trimL line) with
  | none => exact h
  | some col =>
    intro q hq hflag
    simp only at hq ⊢
    rcases upsert_mem hq with hmem | rfl
    · have := h q hmem hflag
      by_cases hcp : col.primaryKey
      · rw [if_pos hcp]
        exact List.mem_append_left _ this
      · rw [if_neg hcp]
        exact this
    · simp only at hflag ⊢
      rw [if_pos hflag]
      exact List.mem_append_right _ (List.mem_singleton.mpr rfl)

theorem parseCreateTable_sound {statement : List Char} {t : Table}
    (h : parseCreateTable statement = some t) :
    ∀ q ∈ t.columns, q.2.primaryKey = true → q.2.name ∈ t.primaryKeys := by
  rw [parseCreateTable] at h
  cases hn : findCreateTableName statement with
  | none => rw [hn] at h; cases h
  | some nameCap =>
    rw [hn] at h
    cases hp : parenCapture statement with
    | none => rw [hp] at h; cases h
    | some content =>
      rw [hp] at h
      have hfold : ∀ (lines : List (List Char)) (t0 : Table),
          (∀ q ∈ t0.columns, q.2.primaryKey = true → q.2.name ∈ t0.primaryKeys) →
          ∀ q ∈ (lines.foldl processLine t0).columns, q.2.primaryKey = true →
            q.2.name ∈ (lines.foldl processLine t0).primaryKeys := by
        intro lines
        induction lines with
        | nil => intro t0 h0; exact h0
        | cons l ls ih =>
          intro t0 h0
          exact ih (processLine t0 l) (processLine_sound l h0)
      have ht : t = (splitColumnDefinitions content).foldl processLine
          { name := ⟨nameCap⟩, columns := [], primaryKeys := [],
            foreignKeys := [], uniqueConstraints := [], schemaName := none } := by
        cases h; rfl
      rw [ht]
      exact hfold _ _ (by intro q hq; cases hq)

/-- C3 (amended): in every table the DDL parser produces, a column whose
`primaryKey` flag is set does appear in the table's `primaryKeys` list; the
converse direction of the claim fails, because a table-level
`PRIMARY KEY(...)` clause extends the list without setting any column
flag. -/
theorem c3_flag_implies_primary_key_membership (input : String) :
    ∀ p ∈ (parse input).tables, ∀ q ∈ p.2.columns,
      q.2.primaryKey = true → q.2.name ∈ p.2.primaryKeys := by
  rw [parse]
  have hfold : ∀ (stmts : List (List Char)) (s0 : DatabaseSchema),
      (∀ p ∈ s0.tables, ∀ q ∈ p.2.columns, q.2.primaryKey = true →
        q.2.name ∈ p.2.primaryKeys) →
      ∀ p ∈ (stmts.foldl parseStep s0).tables,
        ∀ q ∈ p.2.columns, q.2.primaryKey = true → q.2.name ∈ p.2.primaryKeys := by
    intro stmts
    induction stmts with
    | nil => intro s0 h0; exact h0
    | cons st rest ih =>
      intro s0 h0
      rw [List.foldl_cons]
      refine ih (parseStep s0 st) ?_
      rw [parseStep]
      by_cases hskip : ((trimL st).isEmpty ||
          !(startsWithL (upperL (trimL st)) "CREATE TABLE".data)) = true
      · rw [if_pos hskip]; exact h0
      · rw [if_neg hskip]
        cases hct : parseCreateTable (trimL st) with
        | none => exact h0
        | some t =>
          intro p hp
          simp only at hp
          rcases upsert_mem hp with hmem | rfl
          · exact h0 p hmem
          · exact parseCreateTable_sound hct
  exact hfold _ _ (by intro p hp; cases hp)

/-- C3 witness: with an inline `PRIMARY KEY` column modifier, the flag is
set and — as the amended claim guarantees — the column is in the table's
primary-key list. -/
theorem c3_flag_implies_primary_key_membership_witness :
    ("id" : String) ∈ c3WitnessTable.primaryKeys := by
  have hmem : ("users", c3WitnessTable) ∈ (parse c3WitnessInput).tables := by
    with_unfolding_all decide
  exact c3_flag_implies_primary_key_membership c3WitnessInput
    ("users", c3WitnessTable) hmem ("id", c3WitnessCol)
    (List.mem_singleton.mpr rfl) (by decide)

theorem splitWsAux_token (r : List Char) :
    ∀ (ident acc : List Char), (∀ c ∈ ident, isJsSpace c = false) →
      acc.reverse ++ ident ≠ [] →
      splitWsAux (ident ++ ' ' :: r) acc =
        (acc.reverse ++ ident) :: splitWsAux r [] := by
  intro ident
  induction ident with
  | nil =>
    intro acc hns hne
    have hacc : acc.isEmpty = false := by
      rcases acc with _ | ⟨c, cs⟩
      · simp at hne
      · rfl
    simp only [List.nil_append, splitWsAux, show isJsSpace ' ' = true from rfl,
      if_true, hacc, Bool.false_eq_true, if_false, List.append_nil]
  | cons c cs ih =>
    intro acc hns hne
    have hc : isJsSpace c = false := hns c (List.mem_cons_self c cs)
    simp only [List.cons_append, splitWsAux, hc, Bool.false_eq_true, if_false]
    show splitWsAux (cs ++ ' ' :: r) (c :: acc) =
      (acc.reverse ++ c :: cs) :: splitWsAux r []
    rw [ih (c :: acc) (fun d hd => hns d (List.mem_cons_of_mem c hd)) (by simp),
      List.reverse_cons, List.append_assoc, List.singleton_append]

theorem trimL_token (l : List Char) (hl : l ≠ [])
    (hns : ∀ c ∈ l, isJsSpace c = false) :
    trimL (l ++ ' ' :: "INT".data) = l ++ ' ' :: "INT".data := by
  have hleft : trimLeftL (l ++ ' ' :: "INT".data) = l ++ ' ' :: "INT".data := by
    rcases l with _ | ⟨c, cs⟩
    · exact absurd rfl hl
    rw [List.cons_append, trimLeftL, List.dropWhile_cons,
      hns c (List.mem_cons_self c cs)]
    simp
  rw [trimL, hleft, List.reverse_append]
  rw [show (' ' :: "INT".data).reverse = 'T' :: ['N', 'I', ' '] from rfl]
  rw [List.cons_append, List.dropWhile_cons]
  simp only [show isJsSpace 'T' = false from rfl, Bool.false_eq_true, if_false]
  rw [show ('T' : Char) :: (['N', 'I', ' '] ++ l.reverse) =
      (l ++ ' ' :: "INT".data).reverse from by
    rw [List.reverse_append]
    rfl]
  exact List.reverse_reverse _

theorem takeWhile_append_stop (p : Char → Bool) (l : List Char) (c : Char)
    (r : List Char) (hl : ∀ x ∈ l, p x = true) (hc : p c = false) :
    (l ++ c :: r).takeWhile p = l := by
  induction l with
  | nil => simp [List.takeWhile_cons, hc]
  | cons a l ih =>
    have ha := hl a (List.mem_cons_self a l)
    have ih2 := ih (fun x hx => hl x (List.mem_cons_of_mem a hx))
    simp [List.takeWhile_cons, ha, ih2]

theorem dropWhile_append_all (p : Char → Bool) (l : List Char)
    (hl : ∀ x ∈ l, p x = true) (r : List Char) :
    (l ++ r).dropWhile p = r.dropWhile p := by
  induction l with
  | nil => rfl
  | cons a l ih =>
    have ha := hl a (List.mem_cons_self a l)
    have ih2 := ih (fun x hx => hl x (List.mem_cons_of_mem a hx))
    simp [List.dropWhile_cons, ha, ih2]

theorem quotedWord_at_quote (ident : List Char) (c : Char) (r : List Char)
    (hne : ident ≠ []) (hw : ∀ x ∈ ident, isWordChar x = true)
    (hc : isWordChar c = false) :
    quotedWord ('"' :: (ident ++ c :: r)) = some (ident, c :: r) := by
  have htake : (ident ++ c :: r).takeWhile isWordChar = ident :=
    takeWhile_append_stop isWordChar ident c r hw hc
  have hie : ident.isEmpty = false := by
    rcases ident with _ | ⟨a, as⟩
    · exact absurd rfl hne
    · rfl
  simp only [quotedWord, show isQuoteChar '"' = true from rfl, if_true, htake,
    hie, Bool.false_eq_true, if_false, List.drop_left]

theorem createTableNameAt_quoted (ident : List Char) (hne : ident ≠ [])
    (hw : ∀ x ∈ ident, isWordChar x = true) :
    createTableNameAt
        ("CREATE TABLE \"".data ++ (ident ++ '"' :: (" (Id INT)").data))
      = some ident := by
  have h1 : createTableNameAt
        ("CREATE TABLE \"".data ++ (ident ++ '"' :: (" (Id INT)").data))
      = (quotedWord ('"' :: (ident ++ '"' :: (" (Id INT)").data))).bind
          (fun p => some p.1) := rfl
  rw [h1, quotedWord_at_quote ident '"' ((" (Id INT)").data) hne hw (by rfl)]
  rfl

theorem findCreateTableName_quoted (ident : List Char) (hne : ident ≠ [])
    (hw : ∀ x ∈ ident, isWordChar x = true) :
    findCreateTableName
        ("CREATE TABLE \"".data ++ (ident ++ '"' :: (" (Id INT)").data))
      = some ident := by
  have hname := createTableNameAt_quoted ident hne hw
  have hs : ("CREATE TABLE \"".data ++ (ident ++ '"' :: (" (Id INT)").data))
      = 'C' :: ("REATE TABLE \"".data ++ (ident ++ '"' :: (" (Id INT)").data)) := rfl
  rw [hs] at hname ⊢
  rw [findCreateTableName, hname]

theorem parenCapture_quoted (ident : List Char)
    (hw : ∀ x ∈ ident, isWordChar x = true) :
    parenCapture
        ("CREATE TABLE \"".data ++ (ident ++ '"' :: (" (Id INT)").data))
      = some ("Id INT".data) := by
  have hident : ∀ x ∈ ident, decide (x ≠ '(') = true := by
    intro x hx
    have hwx := hw x hx
    by_cases hxp : x = '('
    · rw [hxp] at hwx
      exact absurd hwx (by decide)
    · simpa using hxp
  have hdrop : ("CREATE TABLE \"".data
        ++ (ident ++ '"' :: (" (Id INT)").data)).dropWhile (fun c => c ≠ '(')
      = '(' :: "Id INT)".data := by
    rw [dropWhile_append_all (fun c => c ≠ '(') ("CREATE TABLE \"".data)
        (by decide), dropWhile_append_all (fun c => c ≠ '(') ident hident]
    rfl
  simp only [parenCapture, hdrop]
  rfl

/-- C4 (amended): the parser never case-folds identifiers. A whitespace-free
identifier is stored verbatim with the quote characters stripped:
`parseColumn` stores the unquoted and the quoted spelling of a column
identifier identically with case preserved, and `parseCreateTable` captures
a quoted table name made of word characters verbatim with case preserved.
A quoted identifier containing a space, however, is truncated rather than
stored verbatim: on the repository's own contract-test DDL the table
`"User Profiles"` is stored as `User` (the name regex captures only the
first word-character run) and the column `"User Name"` is stored as `User`
(only the first whitespace-delimited token is kept, quote-stripped). -/
theorem c4_identifier_case_and_truncation (identC identT : List Char)
    (hneC : identC ≠ []) (hnsC : ∀ c ∈ identC, isJsSpace c = false)
    (hnqC : ∀ c ∈ identC, isQuoteChar c = false)
    (hneT : identT ≠ []) (hwT : ∀ c ∈ identT, isWordChar c = true) :
    ((parseColumn (identC ++ ' ' :: "INT".data)).map Column.name
        = some ⟨identC⟩ ∧
      (parseColumn (('"' :: identC ++ ['"']) ++ ' ' :: "INT".data)).map
          Column.name = some ⟨identC⟩) ∧
    (parseCreateTable
        ("CREATE TABLE \"".data ++ (identT ++ '"' :: (" (Id INT)").data))).map
        Table.name = some ⟨identT⟩ ∧
    ((parse c4QuotedSpaceInput).tables.map Prod.fst = ["User"] ∧
      ((parse c4QuotedSpaceInput).tables.flatMap
        (fun p => p.2.columns.map Prod.fst)) = ["ID", "User"] ∧
      ("User" : String) ≠ "User Profiles" ∧
      ("User" : String) ≠ "User Name") := by
  have hstrip : stripQuotes identC = identC :=
    List.filter_eq_self.mpr (fun c hc => by rw [hnqC c hc]; rfl)
  refine ⟨⟨?_, ?_⟩, ?_, ?_⟩
  · rw [parseColumn, trimL_token identC hneC hnsC, splitWs,
      splitWsAux_token "INT".data identC [] hnsC (by simpa using hneC)]
    simp only [List.reverse_nil, List.nil_append]
    rw [show splitWsAux "INT".data [] = ["INT".data] from rfl]
    simp [hstrip]
  · have hne2 : ('"' :: identC ++ ['"'] : List Char) ≠ [] := by simp
    have hns2 : ∀ c ∈ ('"' :: identC ++ ['"'] : List Char), isJsSpace c = false := by
      intro c hc
      have hc2 : c = '"' ∨ c ∈ identC ∨ c = '"' := by simpa using hc
      rcases hc2 with rfl | hc3 | rfl
      · rfl
      · exact hnsC c hc3
      · rfl
    rw [parseColumn, trimL_token _ hne2 hns2, splitWs,
      splitWsAux_token "INT".data _ [] hns2 (by simp)]
    simp only [List.reverse_nil, List.nil_append]
    rw [show splitWsAux "INT".data [] = ["INT".data] from rfl]
    have hstrip2 : stripQuotes ('"' :: identC ++ ['"']) = identC := by
      rw [stripQuotes, List.cons_append, List.filter_cons]
      simp only [show (!(isQuoteChar '"')) = false from rfl, Bool.false_eq_true,
        if_false, List.filter_append]
      have hstripf : List.filter (fun c => !(isQuoteChar c)) identC = identC := hstrip
      rw [hstripf, show List.filter (fun c => !(isQuoteChar c)) ['"'] = [] from rfl,
        List.append_nil]
    simp only [Option.map_some]
    exact congrArg (fun d => some ({ data := d } : String)) hstrip2
  · simp only [parseCreateTable, findCreateTableName_quoted identT hneT hwT,
      parenCapture_quoted identT hwT]
    rfl
  · with_unfolding_all decide

/-- C4 witness: the column identifier `Id` (unquoted and quoted) and the
quoted table identifier `"Users"` are stored verbatim with case preserved,
and the contract-test DDL's space-containing quoted identifiers are
truncated. -/
theorem c4_identifier_case_and_truncation_witness :
    ((parseColumn ("Id".data ++ ' ' :: "INT".data)).map Column.name
        = some ⟨"Id".data⟩ ∧
      (parseColumn (('"' :: "Id".data ++ ['"']) ++ ' ' :: "INT".data)).map
          Column.name = some ⟨"Id".data⟩) ∧
    (parseCreateTable
        ("CREATE TABLE \"".data ++ ("Users".data ++ '"' :: (" (Id INT)").data))).map
        Table.name = some ⟨"Users".data⟩ ∧
    ((parse c4QuotedSpaceInput).tables.map Prod.fst = ["User"] ∧
      ((parse c4QuotedSpaceInput).tables.flatMap
        (fun p => p.2.columns.map Prod.fst)) = ["ID", "User"] ∧
      ("User" : String) ≠ "User Profiles" ∧
      ("User" : String) ≠ "User Name") :=
  c4_identifier_case_and_truncation "Id".data "Users".data (by decide)
    (by decide) (by decide) (by decide) (by decide)

/-- C5 (amended): the No Repeating Groups rule reports array columns as
ERROR with confidence 1.0 and JSON/JSONB columns as WARNING with confidence
0.8; the Primary Key Required rule always reports ERROR with confidence
1.0. -/
theorem c5_deterministic_rule_confidences (schema : DatabaseSchema) :
    (∀ r, noRepeatingGroupsRule.eval schema = Except.ok r →
      ∀ v ∈ r.violations,
        (v.severity = Severity.ERROR ∧ v.confidence = 1) ∨
        (v.severity = Severity.WARNING ∧ v.confidence = 8 / 10)) ∧
    (∀ r, primaryKeyRule.eval schema = Except.ok r →
      ∀ v ∈ r.violations, v.severity = Severity.ERROR ∧ v.confidence = 1) := by
  constructor
  · intro r hr v hv
    simp only [noRepeatingGroupsRule, Except.ok.injEq] at hr
    rw [← hr] at hv
    simp only at hv
    rcases List.mem_flatMap.mp hv with ⟨p, hp, hv2⟩
    rcases List.mem_flatMap.mp hv2 with ⟨cp, hcp, hv3⟩
    rw [noRepeatingGroupsColViolations] at hv3
    rcases List.mem_append.mp hv3 with hv4 | hv4
    · by_cases harr : isArrayType cp.2.type
      · rw [if_pos harr] at hv4
        have : v = createViolation NormalForm.nf1 p.1 (some cp.1) _ _ _
            Severity.ERROR 1 := List.mem_singleton.mp hv4
        rw [this]
        exact Or.inl ⟨rfl, rfl⟩
      · rw [if_neg harr] at hv4
        cases hv4
    · by_cases hjson : isJsonType cp.2.type
      · rw [if_pos hjson] at hv4
        have : v = createViolation NormalForm.nf1 p.1 (some cp.1) _ _ _
            Severity.WARNING (8 / 10) := List.mem_singleton.mp hv4
        rw [this]
        exact Or.inr ⟨rfl, rfl⟩
      · rw [if_neg hjson] at hv4
        cases hv4
  · intro r hr v hv
    simp only [primaryKeyRule, Except.ok.injEq] at hr
    rw [← hr] at hv
    simp only at hv
    rcases List.mem_flatMap.mp hv with ⟨p, hp, hv2⟩
    by_cases hpk : p.2.primaryKeys.isEmpty
    · rw [if_pos hpk] at hv2
      have : v = primaryKeyViolation p.1 := List.mem_singleton.mp hv2
      rw [this]
      exact ⟨rfl, rfl⟩
    · rw [if_neg hpk] at hv2
      cases hv2

/-- C5 witness: on the concrete JSONB schema the rule's sole violation
falls in the WARNING/0.8 branch. -/
theorem c5_deterministic_rule_confidences_witness :
    (c5JsonViolation.severity = Severity.ERROR ∧ c5JsonViolation.confidence = 1) ∨
    (c5JsonViolation.severity = Severity.WARNING ∧
      c5JsonViolation.confidence = 8 / 10) :=
  (c5_deterministic_rule_confidences c5JsonSchema).1 c5JsonRuleResult
    (by with_unfolding_all rfl) c5JsonViolation (List.mem_singleton.mpr rfl)

end NormaDB
